import Mathlib

/-!
Verification of the schema-object generation engine of a zod-to-OpenAPI
converter.  The object parser (`createObjectSchema` and friends) and the
transform parser (`createTransformSchema`, `throwTransformError`) are
translated from `src/create/schema/parsers/object.ts` and the transform
parser source.  Parts of the engine that the repository snapshot does not
ship (the recursive dispatcher `createSchemaObject`, the component registry
helpers, `isOptionalSchema`, `createManualTypeSchema`, and the discriminated
union converter, of which only its test file is present) are modelled from
the specification; each such definition says so in its doc comment.

Node identity: the source keys its component registry by the reference
identity of the original zod nodes.  Following the spec's design note, each
node here carries a stable natural-number handle `nid`; reference identity
is handle equality.
-/

namespace ZodOpenApi

/-- Directional context of a traversal and the value space of effect-type
overrides: `input` for request shapes, `output` for response shapes. -/
inductive EffectType where
  | input
  | output
deriving DecidableEq

/-- The `unknownKeys` policy of a zod object (`strip` is the default). -/
inductive UnknownKeys where
  | strict
  | strip
  | passthrough
deriving DecidableEq

/-- Registration metadata attached to a node via `.openapi({...})`:
an optional component reference name, an optional declared effect
direction, and an optional manually declared output type. -/
structure OpenApiMeta where
  ref : Option String := none
  effectType : Option EffectType := none
  manualType : Option String := none
deriving DecidableEq

/-- The slice of the zod node tree that the converters under verification
read.  Each constructor carries the node's identity handle `nid` first and
its `.openapi` metadata last. -/
inductive ZodType where
  | string (nid : Nat) (meta : OpenApiMeta)
  | never (nid : Nat) (meta : OpenApiMeta)
  | literal (nid : Nat) (value : String) (meta : OpenApiMeta)
  | enum (nid : Nat) (values : List String) (meta : OpenApiMeta)
  | optional (nid : Nat) (inner : ZodType) (meta : OpenApiMeta)
  | withDefault (nid : Nat) (inner : ZodType) (meta : OpenApiMeta)
  | object (nid : Nat) (shape : List (String × ZodType))
      (unknownKeys : UnknownKeys) (catchall : ZodType)
      (extendsBase : Option ZodType) (meta : OpenApiMeta)
  | transform (nid : Nat) (inner : ZodType) (meta : OpenApiMeta)
  | discriminatedUnion (nid : Nat) (discriminator : String)
      (options : List ZodType) (meta : OpenApiMeta)

/-- The identity handle of a node (models JavaScript reference identity). -/
def ZodType.nid : ZodType → Nat
  | .string n _ => n
  | .never n _ => n
  | .literal n _ _ => n
  | .enum n _ _ => n
  | .optional n _ _ => n
  | .withDefault n _ _ => n
  | .object n _ _ _ _ _ => n
  | .transform n _ _ => n
  | .discriminatedUnion n _ _ _ => n

/-- The `.openapi` metadata of a node. -/
def ZodType.meta : ZodType → OpenApiMeta
  | .string _ m => m
  | .never _ m => m
  | .literal _ _ m => m
  | .enum _ _ m => m
  | .optional _ _ m => m
  | .withDefault _ _ m => m
  | .object _ _ _ _ _ m => m
  | .transform _ _ m => m
  | .discriminatedUnion _ _ _ m => m

/-- Models `isZodType(x, 'ZodNever')`. -/
def ZodType.isNever : ZodType → Bool
  | .never _ _ => true
  | _ => false

/-- The shape of an object node (`zodObject._def.shape()`); empty for
non-object nodes. -/
def ZodType.shapeOf : ZodType → List (String × ZodType)
  | .object _ s _ _ _ _ => s
  | _ => []

/-- The `unknownKeys` policy of an object node (`strip` is zod's default,
returned for non-object nodes). -/
def ZodType.unknownKeysOf : ZodType → UnknownKeys
  | .object _ _ u _ _ _ => u
  | _ => .strip

/-- The catchall of an object node; zod's default catchall is `ZodNever`,
which is also returned for non-object nodes. -/
def ZodType.catchallOf : ZodType → ZodType
  | .object _ _ _ c _ _ => c
  | _ => .never 0 {}

/-- The declared extension base of an object node
(`zodObject._def.extendMetadata?.extends`). -/
def ZodType.extendsOf : ZodType → Option ZodType
  | .object _ _ _ _ e _ => e
  | _ => none

/-- The wrapped schema of a transform node (`zodTransform._def.schema`);
for non-transform nodes an arbitrary default. -/
def ZodType.innerOf : ZodType → ZodType
  | .optional _ i _ => i
  | .withDefault _ i _ => i
  | .transform _ i _ => i
  | _ => .never 0 {}

/-- Serializable JSON-like values: the emitted OpenAPI document fragments.
Objects are ordered key-value lists, mirroring JavaScript object key
order. -/
inductive JVal where
  | str (s : String)
  | bool (b : Bool)
  | arr (items : List JVal)
  | obj (fields : List (String × JVal))

/-- Associative lookup of the first binding of a key. -/
def lookupKey {κ α : Type} [DecidableEq κ] : List (κ × α) → κ → Option α
  | [], _ => none
  | (k, v) :: rest, key => if k = key then some v else lookupKey rest key

/-- JavaScript object-spread assignment of one key: if the key already
exists its value is replaced in place, otherwise the binding is appended. -/
def setKey {κ α : Type} [DecidableEq κ] :
    List (κ × α) → κ → α → List (κ × α)
  | [], key, v => [(key, v)]
  | (k, w) :: rest, key, v =>
      if k = key then (k, v) :: rest else (k, w) :: setKey rest key v

/-- Read a field of an emitted object fragment. -/
def JVal.getField : JVal → String → Option JVal
  | .obj fields, key => lookupKey fields key
  | _, _ => none

/-- JavaScript spread of the fields of the second object fragment into the
first (`{...a, ...b}`); later keys win. -/
def spreadObj (base extra : JVal) : JVal :=
  match base, extra with
  | .obj fs, .obj gs => .obj (gs.foldl (fun acc kv => setKey acc kv.1 kv.2) fs)
  | _, _ => base

/-- A component registry record: `manual` has a name assigned but no
generated fragment yet; `complete` carries the generated fragment. -/
inductive SchemaComponent where
  | manual (ref : String)
  | complete (ref : String) (schemaObject : JVal)

/-- The assigned reference name of a record (defined for both variants). -/
def SchemaComponent.ref : SchemaComponent → String
  | .manual r => r
  | .complete r _ => r

/-- The component registry, keyed by node identity handles.  The claims
under verification only exercise the schema-component map, so the other
four maps of the registry are not carried. -/
structure Components where
  schemas : List (Nat × SchemaComponent)

/-- Registry lookup (`state.components.schemas.get(node)`). -/
def Components.getSchema (c : Components) (n : Nat) : Option SchemaComponent :=
  lookupKey c.schemas n

/-- Registry insertion (`state.components.schemas.set(node, record)`). -/
def Components.setSchema (c : Components) (n : Nat) (r : SchemaComponent) :
    Components :=
  ⟨(c.schemas.map fun kv => if kv.1 = n then (n, r) else kv) ++
    (if (c.schemas.map Prod.fst).contains n then [] else [(n, r)])⟩

/-- The mutable traversal state, threaded explicitly: the shared component
registry, the directional context, the effect-type resolution recorded so
far, and the diagnostic breadcrumb path. -/
structure SchemaState where
  components : Components
  type : EffectType
  effectType : Option EffectType := none
  path : List String := []

/-- Errors raised during conversion.  `outOfFuel` is an artifact of the
fuel-based embedding of the recursion. -/
inductive SchemaError where
  | transformConflict (message : String)
  | unknownSchemaType (message : String)
  | outOfFuel

/-- The message carried by an error. -/
def SchemaError.messageOf : SchemaError → String
  | .transformConflict m => m
  | .unknownSchemaType m => m
  | .outOfFuel => ""

/-- Modelled from the spec: stands in for `JSON.stringify` of the offending
node in diagnostics; a shallow printer of the node's kind and identity. -/
def serializeZodType : ZodType → String
  | .string n _ => ("ZodString#") ++ toString n
  | .never n _ => ("ZodNever#") ++ toString n
  | .literal n _ _ => ("ZodLiteral#") ++ toString n
  | .enum n _ _ => ("ZodEnum#") ++ toString n
  | .optional n _ _ => ("ZodOptional#") ++ toString n
  | .withDefault n _ _ => ("ZodDefault#") ++ toString n
  | .object n _ _ _ _ _ => ("ZodObject#") ++ toString n
  | .transform n _ _ => ("ZodEffects#") ++ toString n
  | .discriminatedUnion n _ _ _ => ("ZodDiscriminatedUnion#") ++ toString n

/-- Translated from the transform parser source: builds the conflict error
whose message serializes the offending node and joins the breadcrumb
path. -/
def throwTransformError (zodType : ZodType) (state : SchemaState) :
    SchemaError :=
  .transformConflict
    (serializeZodType zodType ++ (" at ") ++
      String.intercalate (" > ") state.path ++
      (" contains a transformation but is used in both an input and an output. This is likely a mistake. Set an effectType, wrap it in a ZodPipeline or assign it a manual type to resolve"))

/-- Modelled from the spec: `isOptionalSchema` (parsers/optional.ts is not
in the snapshot).  A field is optional when wrapped in `ZodOptional`, and a
field with a default is optional only in output context. -/
def isOptionalSchema (zodSchema : ZodType) (state : SchemaState) : Bool :=
  match zodSchema with
  | .optional _ _ _ => true
  | .withDefault _ _ _ => state.type = .output
  | _ => false

/-- Modelled from the spec: the reference path is a fixed component-section
prefixing of the assigned reference name. -/
def createComponentSchemaRef (schemaRef : String) : String :=
  ("#/components/schemas/") ++ schemaRef

/-- A `{$ref: ...}` reference object for a registered component. -/
def refFragment (schemaRef : String) : JVal :=
  .obj [(("$ref"), .str (createComponentSchemaRef schemaRef))]

/-- JavaScript truthiness of an optional string (the empty string is
falsy), used by the `component ?? ref` guard of `createExtendedSchema`. -/
def jsTruthyStr : Option String → Bool
  | none => false
  | some s => s ≠ ""

/-- The pair of additional-property inputs of the object converter
(`unknownKeys` and `catchAll`), translated from the source interface. -/
structure AdditionalPropertyOptions where
  unknownKeys : UnknownKeys
  catchAll : ZodType

/-- Translated from the source: the diff emits the optimization options
only when the base policy is default-permissive (not `strict`, catchall is
`ZodNever`); the emitted options are the extended schema's own. -/
def createDiffOpts (baseOpts extendedOpts : AdditionalPropertyOptions) :
    Option AdditionalPropertyOptions :=
  if baseOpts.unknownKeys = .strict ∨ ¬ baseOpts.catchAll.isNever then
    none
  else
    some { catchAll := extendedOpts.catchAll,
           unknownKeys := extendedOpts.unknownKeys }

/-- Translated from the source: walk the extended shape in declaration
order; a field whose node is reference-identical to the base's is dropped,
a field absent from the base is kept, and any other overlap aborts the
whole diff with `null`. -/
def createShapeDiff (baseObj extendedObj : List (String × ZodType)) :
    Option (List (String × ZodType)) :=
  match extendedObj with
  | [] => some []
  | (key, val) :: rest =>
      match lookupKey baseObj key with
      | some baseValue =>
          if val.nid = baseValue.nid then createShapeDiff baseObj rest
          else none
      | none =>
          (createShapeDiff baseObj rest).map (fun acc => (key, val) :: acc)

/-- Translated from the source: the `required` list keeps, in declaration
order, the names whose schemas are not optional under the current state,
and is `undefined` when that list is empty. -/
def mapRequired (shape : List (String × ZodType)) (state : SchemaState) :
    Option (List String) :=
  let required :=
    (shape.filter fun kv => ! isOptionalSchema kv.2 state).map Prod.fst
  if required.isEmpty then none else some required

/-- Modelled from the spec: the manual type resolver (parsers/manual.ts is
not in the snapshot).  It emits the node's manually declared output type,
and raising an error when none was assigned. -/
def createManualTypeSchema (zodSchema : ZodType) (state : SchemaState) :
    Except SchemaError (JVal × SchemaState) :=
  match zodSchema.meta.manualType with
  | some t => .ok (.obj [(("type"), .str t)], state)
  | none => .error (.unknownSchemaType (serializeZodType zodSchema))

/-- The discriminator tag values a union member contributes: the single
value of a literal field, one value per entry of an enum field, nothing
otherwise. -/
def discriminatorValues (zodObject : ZodType) (discriminator : String) :
    Option (List String) :=
  match lookupKey zodObject.shapeOf discriminator with
  | some (.literal _ v _) => some [v]
  | some (.enum _ vs _) => some vs
  | _ => none

/-- Modelled from the spec: the discriminator mapping over the union
members, built only when every member has a registry record and readable
tag values; each value maps to the member's reference path. -/
def mapDiscriminator (components : Components) (discriminator : String) :
    List ZodType → Option (List (String × JVal))
  | [] => some []
  | zodObject :: rest =>
      match components.getSchema zodObject.nid,
          discriminatorValues zodObject discriminator with
      | some component, some vs =>
          (mapDiscriminator components discriminator rest).map
            (fun m =>
              vs.map
                (fun v =>
                  (v, JVal.str (createComponentSchemaRef component.ref)))
                ++ m)
      | _, _ => none

/-- Modelled from the spec: the dispatcher's return step.  The parent path
is restored, and an effect-type resolution recorded by the child that
conflicts with a value already recorded before the call raises the
transform conflict error of the source. -/
def effectMerge (zodSchema : ZodType) (preEffect : Option EffectType)
    (parentPath subpath : List String) :
    Except SchemaError (JVal × SchemaState) →
    Except SchemaError (JVal × SchemaState)
  | .error e => .error e
  | .ok (frag, st1) =>
      match preEffect, st1.effectType with
      | some e0, some e1 =>
          if e0 = e1 then .ok (frag, { st1 with path := parentPath })
          else
            .error (throwTransformError zodSchema
              { st1 with path := parentPath ++ subpath })
      | _, _ => .ok (frag, { st1 with path := parentPath })

mutual

/-- Modelled from the spec: the recursive dispatcher `createSchemaObject`
(its source file is not in the snapshot).  Each recursive call receives the
parent path extended by `subpath` and restores it on return; a node with a
complete registry record yields its reference object; a manual record or a
reference hint forces inline generation and upgrades the record to
complete; otherwise the node is converted inline.  On return, an
effect-type resolution conflicting with a previously recorded one raises
the transform conflict error. -/
def createSchemaObject (fuel : Nat) (zodSchema : ZodType)
    (state : SchemaState) (subpath : List String) :
    Except SchemaError (JVal × SchemaState) :=
  match fuel with
  | 0 => .error .outOfFuel
  | fuel + 1 =>
      let stIn : SchemaState := { state with path := state.path ++ subpath }
      let result : Except SchemaError (JVal × SchemaState) :=
        match state.components.getSchema zodSchema.nid with
        | some (.complete r _) => .ok (refFragment r, stIn)
        | some (.manual r) =>
            match createSchemaInline fuel zodSchema stIn with
            | .error e => .error e
            | .ok (frag, st1) =>
                let comps1 :=
                  st1.components.setSchema zodSchema.nid (.complete r frag)
                .ok (refFragment r, { st1 with components := comps1 })
        | none =>
            match zodSchema.meta.ref with
            | some r =>
                let comps0 :=
                  stIn.components.setSchema zodSchema.nid (.manual r)
                let st0 : SchemaState := { stIn with components := comps0 }
                match createSchemaInline fuel zodSchema st0 with
                | .error e => .error e
                | .ok (frag, st1) =>
                    let comps1 :=
                      st1.components.setSchema zodSchema.nid
                        (.complete r frag)
                    .ok (refFragment r, { st1 with components := comps1 })
            | none => createSchemaInline fuel zodSchema stIn
      effectMerge zodSchema state.effectType state.path subpath result
termination_by fuel

/-- Modelled from the spec: the kind dispatch at the heart of the
dispatcher, routing a node to its converter; leaf emissions follow the
fragments pinned by the repository's test expectations. -/
def createSchemaInline (fuel : Nat) (zodSchema : ZodType)
    (state : SchemaState) : Except SchemaError (JVal × SchemaState) :=
  match fuel with
  | 0 => .error .outOfFuel
  | fuel + 1 =>
      match zodSchema with
      | .string _ _ => .ok (.obj [(("type"), .str ("string"))], state)
      | .never _ _ => createManualTypeSchema zodSchema state
      | .literal _ v _ =>
          .ok (.obj [(("type"), .str ("string")),
            (("enum"), .arr [.str v])], state)
      | .enum _ vs _ =>
          .ok (.obj [(("type"), .str ("string")),
            (("enum"), .arr (vs.map JVal.str))], state)
      | .optional _ inner _ =>
          createSchemaObject fuel inner state [("optional")]
      | .withDefault _ inner _ =>
          createSchemaObject fuel inner state [("default")]
      | .object _ _ _ _ _ _ => createObjectSchema fuel zodSchema state
      | .transform _ _ _ => createTransformSchema fuel zodSchema state
      | .discriminatedUnion _ d options _ =>
          createDiscriminatedUnionSchema fuel d options state
termination_by fuel

/-- Translated from the source: try the extension optimization first and
fall back to full generation from the shape. -/
def createObjectSchema (fuel : Nat) (zodObject : ZodType)
    (state : SchemaState) : Except SchemaError (JVal × SchemaState) :=
  match fuel with
  | 0 => .error .outOfFuel
  | fuel + 1 =>
      match createExtendedSchema fuel zodObject zodObject.extendsOf state with
      | .error e => .error e
      | .ok (some extendedSchema, st1) => .ok (extendedSchema, st1)
      | .ok (none, st1) =>
          createObjectSchemaFromShape fuel zodObject.shapeOf
            { unknownKeys := zodObject.unknownKeysOf,
              catchAll := zodObject.catchallOf } st1
termination_by fuel

/-- Translated from the source: when the declared base is (or can be)
registered, force its generation, then require a registry record, the diff
options and the shape diff; any miss returns `undefined` and the caller
generates the schema in full. -/
def createExtendedSchema (fuel : Nat) (zodObject : ZodType)
    (baseZodObject : Option ZodType) (state : SchemaState) :
    Except SchemaError (Option JVal × SchemaState) :=
  match fuel with
  | 0 => .error .outOfFuel
  | fuel + 1 =>
      match baseZodObject with
      | none => .ok (none, state)
      | some base =>
          let component := state.components.getSchema base.nid
          let forced : Except SchemaError SchemaState :=
            if component.isSome ∨ jsTruthyStr base.meta.ref then
              match createSchemaObject fuel base state
                  [("extended schema")] with
              | .error e => .error e
              | .ok (_, st1) => .ok st1
            else .ok state
          match forced with
          | .error e => .error e
          | .ok st1 =>
              match st1.components.getSchema base.nid with
              | none => .ok (none, st1)
              | some completeComponent =>
                  match createDiffOpts
                      { unknownKeys := base.unknownKeysOf,
                        catchAll := base.catchallOf }
                      { unknownKeys := zodObject.unknownKeysOf,
                        catchAll := zodObject.catchallOf } with
                  | none => .ok (none, st1)
                  | some diffOpts =>
                      match createShapeDiff base.shapeOf
                          zodObject.shapeOf with
                      | none => .ok (none, st1)
                      | some diffShape =>
                          match createObjectSchemaFromShape fuel diffShape
                              diffOpts st1 with
                          | .error e => .error e
                          | .ok (objSchema, st2) =>
                              .ok (some (spreadObj
                                (.obj [(("allOf"),
                                  .arr [refFragment
                                    completeComponent.ref])])
                                objSchema), st2)
termination_by fuel

/-- Translated from the source: assemble
`type: object` plus the spreads of `properties`, `required` and the two
`additionalProperties` pieces with JavaScript spread semantics (a later
`additionalProperties` spread overwrites an earlier one). -/
def createObjectSchemaFromShape (fuel : Nat)
    (shape : List (String × ZodType)) (opts : AdditionalPropertyOptions)
    (state : SchemaState) : Except SchemaError (JVal × SchemaState) :=
  match fuel with
  | 0 => .error .outOfFuel
  | fuel + 1 =>
      match mapProperties fuel shape state with
      | .error e => .error e
      | .ok (properties, st1) =>
          let required := mapRequired shape st1
          let fields0 : List (String × JVal) :=
            [(("type"), .str ("object"))]
          let fields1 :=
            match properties with
            | some p => setKey fields0 ("properties") (.obj p)
            | none => fields0
          let fields2 :=
            match required with
            | some r => setKey fields1 ("required") (.arr (r.map JVal.str))
            | none => fields1
          let fields3 :=
            if opts.unknownKeys = .strict then
              setKey fields2 ("additionalProperties") (.bool false)
            else fields2
          if opts.catchAll.isNever then .ok (.obj fields3, st1)
          else
            match createSchemaObject fuel opts.catchAll st1
                [("additional properties")] with
            | .error e => .error e
            | .ok (apFrag, st2) =>
                .ok (.obj (setKey fields3 ("additionalProperties") apFrag),
                  st2)
termination_by fuel

/-- Translated from the source: fold the shape into a properties object,
converting each field with the breadcrumb naming the property; the result
is always a defined (hence truthy) object, even for an empty shape. -/
def mapProperties (fuel : Nat) (shape : List (String × ZodType))
    (state : SchemaState) :
    Except SchemaError (Option (List (String × JVal)) × SchemaState) :=
  match fuel with
  | 0 => .error .outOfFuel
  | fuel + 1 =>
      match mapPropertiesGo fuel shape state [] with
      | .error e => .error e
      | .ok (fields, st1) => .ok (some fields, st1)
termination_by fuel

/-- The accumulator loop of `mapProperties` (the `reduce` of the source). -/
def mapPropertiesGo (fuel : Nat) (shape : List (String × ZodType))
    (state : SchemaState) (acc : List (String × JVal)) :
    Except SchemaError (List (String × JVal) × SchemaState) :=
  match fuel with
  | 0 => .error .outOfFuel
  | fuel + 1 =>
      match shape with
      | [] => .ok (acc, state)
      | (key, zodSchema) :: rest =>
          match createSchemaObject fuel zodSchema state
              [("property: ") ++ key] with
          | .error e => .error e
          | .ok (frag, st1) =>
              mapPropertiesGo fuel rest st1 (setKey acc key frag)
termination_by fuel

/-- Translated from the transform parser source: a declared `output` effect
resolves to the manual type; a declared `input` effect recurses into the
wrapped schema; otherwise an output-context traversal resolves to the
manual type, and an input-context traversal records `input` on the state
and recurses into the wrapped schema. -/
def createTransformSchema (fuel : Nat) (zodTransform : ZodType)
    (state : SchemaState) : Except SchemaError (JVal × SchemaState) :=
  match fuel with
  | 0 => .error .outOfFuel
  | fuel + 1 =>
      if zodTransform.meta.effectType = some .output then
        createManualTypeSchema zodTransform state
      else if zodTransform.meta.effectType = some .input then
        createSchemaObject fuel zodTransform.innerOf state
          [("transform input")]
      else if state.type = .output then
        createManualTypeSchema zodTransform state
      else
        createSchemaObject fuel zodTransform.innerOf
          { state with effectType := some .input } [("transform input")]
termination_by fuel

/-- Modelled from the spec: convert each member in declared order into the
`oneOf` list, then attach the discriminator block only when the mapping
construction succeeds for every member. -/
def createDiscriminatedUnionSchema (fuel : Nat) (discriminator : String)
    (options : List ZodType) (state : SchemaState) :
    Except SchemaError (JVal × SchemaState) :=
  match fuel with
  | 0 => .error .outOfFuel
  | fuel + 1 =>
      match oneOfGo fuel options state with
      | .error e => .error e
      | .ok (schemas, st1) =>
          match mapDiscriminator st1.components discriminator options with
          | some mapping =>
              .ok (.obj [(("oneOf"), .arr schemas),
                (("discriminator"), .obj
                  [(("propertyName"), .str discriminator),
                   (("mapping"), .obj mapping)])], st1)
          | none => .ok (.obj [(("oneOf"), .arr schemas)], st1)
termination_by fuel

/-- Converts the union members in order, threading the state. -/
def oneOfGo (fuel : Nat) (options : List ZodType) (state : SchemaState) :
    Except SchemaError (List JVal × SchemaState) :=
  match fuel with
  | 0 => .error .outOfFuel
  | fuel + 1 =>
      match options with
      | [] => .ok ([], state)
      | z :: rest =>
          match createSchemaObject fuel z state
              [("discriminated union option")] with
          | .error e => .error e
          | .ok (frag, st1) =>
              match oneOfGo fuel rest st1 with
              | .error e => .error e
              | .ok (frags, st2) => .ok (frag :: frags, st2)
termination_by fuel

end

/-- Agreement of two traversal states on everything except the breadcrumb
path: same registry, same directional context, same recorded effect
type.  Such states are "equivalent" for conversion: the path only feeds
diagnostics. -/
def EqNoPath (s t : SchemaState) : Prop :=
  s.components = t.components ∧ s.type = t.type ∧
    s.effectType = t.effectType

/-- Relates two conversion outcomes: both succeed with the same payload
and equivalent states, or both fail. -/
def RelRes {α : Type} :
    Except SchemaError (α × SchemaState) →
    Except SchemaError (α × SchemaState) → Prop
  | .ok (a1, s1), .ok (a2, s2) => a1 = a2 ∧ EqNoPath s1 s2
  | .error _, .error _ => True
  | _, _ => False

/-! ### Concrete fixtures used by witnesses -/

/-- A shared field node (reference-identical in both shapes below). -/
def aNode : ZodType := .string 10 {}

/-- A base object `{a: string}` registered under `X` in `stX`. -/
def baseX : ZodType := .object 1 [(("a"), aNode)] .strip (.never 0 {}) none {}

/-- An extension `{a: sameNode, b: string}` of `baseX`. -/
def extX : ZodType :=
  .object 2 [(("a"), aNode), (("b"), .string 11 {})] .strip (.never 0 {})
    (some baseX) {}

/-- A near-copy of `extX` whose field `a` is a different node instance
with the same structure. -/
def extBad : ZodType :=
  .object 3 [(("a"), .string 99 {}), (("b"), .string 11 {})] .strip
    (.never 0 {}) (some baseX) {}

/-- A state in which `baseX` is registered as the complete component `X`. -/
def stX : SchemaState := ⟨⟨[(1, .complete ("X") (.obj []))]⟩, .input, none, []⟩

/-- A union member `{type: literal('c')}` carrying the reference `c`. -/
def unionC : ZodType :=
  .object 20 [(("type"), .literal 21 ("c") {})] .strip (.never 0 {}) none
    { ref := some ("c") }

/-- A union member `{type: enum(['d','e'])}` carrying the reference `d`. -/
def unionD : ZodType :=
  .object 22 [(("type"), .enum 23 [("d"), ("e")] {})] .strip (.never 0 {})
    none { ref := some ("d") }

/-- An unregistered union member `{type: literal('a')}`. -/
def plainA : ZodType :=
  .object 30 [(("type"), .literal 31 ("a") {})] .strip (.never 0 {}) none {}

/-- An unregistered union member `{type: literal('b')}`. -/
def plainB : ZodType :=
  .object 32 [(("type"), .literal 33 ("b") {})] .strip (.never 0 {}) none {}

/-- An output-context traversal state over an empty registry. -/
def stOut : SchemaState := ⟨⟨[]⟩, .output, none, []⟩

/-- A bare transform (no declared effect, no reference, no manual type). -/
def trBare : ZodType := .transform 5 (.string 6 {}) {}

/-- An input-context state that already recorded an `output` effect. -/
def stConf : SchemaState := ⟨⟨[]⟩, .input, some .output, []⟩

/-- The same state after the wrapped schema was converted under the
transform's recorded `input` effect. -/
def stConfIn : SchemaState := ⟨⟨[]⟩, .input, some .input, []⟩

/-- The generated fragment of `unionC`. -/
def fragC : JVal :=
  .obj [(("type"), .str ("object")),
    (("properties"), .obj [(("type"),
      .obj [(("type"), .str ("string")), (("enum"), .arr [.str ("c")])])]),
    (("required"), .arr [.str ("type")])]

/-- The generated fragment of `unionD`. -/
def fragD : JVal :=
  .obj [(("type"), .str ("object")),
    (("properties"), .obj [(("type"),
      .obj [(("type"), .str ("string")),
        (("enum"), .arr [.str ("d"), .str ("e")])])]),
    (("required"), .arr [.str ("type")])]

/-- The registry state after converting `unionC` and `unionD`. -/
def duStCD : SchemaState :=
  ⟨⟨[(20, .complete ("c") fragC), (22, .complete ("d") fragD)]⟩, .output,
    none, []⟩

/-- The discriminated-union fragment over `unionC` and `unionD`. -/
def duFragCD : JVal :=
  .obj [(("oneOf"), .arr [refFragment ("c"), refFragment ("d")]),
    (("discriminator"), .obj [(("propertyName"), .str ("type")),
      (("mapping"), .obj
        [(("c"), .str (createComponentSchemaRef ("c"))),
         (("d"), .str (createComponentSchemaRef ("d"))),
         (("e"), .str (createComponentSchemaRef ("d")))])])]

/-- The generated fragment of `plainA`. -/
def plainFragA : JVal :=
  .obj [(("type"), .str ("object")),
    (("properties"), .obj [(("type"),
      .obj [(("type"), .str ("string")), (("enum"), .arr [.str ("a")])])]),
    (("required"), .arr [.str ("type")])]

/-- The generated fragment of `plainB`. -/
def plainFragB : JVal :=
  .obj [(("type"), .str ("object")),
    (("properties"), .obj [(("type"),
      .obj [(("type"), .str ("string")), (("enum"), .arr [.str ("b")])])]),
    (("required"), .arr [.str ("type")])]

/-- The object fragment of the one-field shape `{a: string}` under the
default policy. -/
def fragReqA : JVal :=
  .obj [(("type"), .str ("object")),
    (("properties"), .obj [(("a"), .obj [(("type"), .str ("string"))])]),
    (("required"), .arr [.str ("a")])]

/-! ### Generic lemmas about the association-list primitives -/

theorem lookupKey_setKey_self {α : Type} (l : List (String × α)) (k : String)
    (v : α) : lookupKey (setKey l k v) k = some v := by
  induction l with
  | nil => simp [setKey, lookupKey]
  | cons kv rest ih =>
      by_cases h : kv.1 = k
      · simp [setKey, lookupKey, h]
      · cases kv with
        | mk k0 w => simp_all [setKey, lookupKey]

theorem lookupKey_setKey_ne {α : Type} (l : List (String × α))
    (k key : String) (v : α) (h : key ≠ k) :
    lookupKey (setKey l k v) key = lookupKey l key := by
  induction l with
  | nil =>
      simp only [setKey, lookupKey]
      rw [if_neg (fun hh => h hh.symm)]
  | cons kv rest ih =>
      cases kv with
      | mk k0 w =>
          by_cases h0 : k0 = k
          · subst h0
            simp only [setKey, if_pos rfl, lookupKey]
            rw [if_neg (fun hh => h hh.symm), if_neg (fun hh => h hh.symm)]
          · simp only [setKey, if_neg h0, lookupKey]
            by_cases h1 : k0 = key <;> simp [h1, ih]

/-- Dispatching a node whose registry record is already complete returns
its reference object and leaves the state untouched. -/
theorem createSchemaObject_complete (fuel : Nat) (z : ZodType)
    (st : SchemaState) (sp : List String) (r : String) (s0 : JVal)
    (h : st.components.getSchema z.nid = some (.complete r s0)) :
    createSchemaObject (fuel + 1) z st sp = .ok (refFragment r, st) := by
  cases st with
  | mk comps ty eff pa =>
      unfold createSchemaObject
      cases eff <;> simp_all [effectMerge]

/-! ### The effect-type discipline of a traversal -/

/-- The manual type resolver returns the state unchanged. -/
theorem createManualTypeSchema_ok (z : ZodType) (st : SchemaState)
    (f : JVal) (st' : SchemaState)
    (h : createManualTypeSchema z st = .ok (f, st')) : st' = st := by
  unfold createManualTypeSchema at h
  cases hz : z.meta.manualType with
  | some t =>
      rw [hz] at h
      simp only [Except.ok.injEq, Prod.mk.injEq] at h
      exact h.2.symm
  | none =>
      rw [hz] at h
      simp at h

/-- Inversion of the merge step on success: the child call succeeded with
the same fragment, only the path is restored, and the child's recorded
effect type cannot disagree with a value recorded before the call. -/
theorem effectMerge_ok (z : ZodType) (pe : Option EffectType)
    (pp sp : List String) (r : Except SchemaError (JVal × SchemaState))
    (f : JVal) (st' : SchemaState)
    (h : effectMerge z pe pp sp r = .ok (f, st')) :
    ∃ st1, r = .ok (f, st1) ∧ st' = { st1 with path := pp } ∧
      (∀ e e1, pe = some e → st1.effectType = some e1 → e1 = e) := by
  cases r with
  | error e => exact absurd h (by simp [effectMerge])
  | ok pr =>
      obtain ⟨frag, st1⟩ := pr
      refine ⟨st1, ?_⟩
      cases pe with
      | none =>
          simp only [effectMerge, Except.ok.injEq, Prod.mk.injEq] at h
          obtain ⟨hf, hst⟩ := h
          subst hf
          exact ⟨rfl, hst.symm, fun e e1 he _ => by cases he⟩
      | some e0 =>
          cases he1 : st1.effectType with
          | none =>
              simp only [effectMerge, he1, Except.ok.injEq,
                Prod.mk.injEq] at h
              obtain ⟨hf, hst⟩ := h
              subst hf
              refine ⟨rfl, hst.symm, fun e e1 _ hee => ?_⟩
              cases hee
          | some e1 =>
              simp only [effectMerge, he1] at h
              by_cases hee : e0 = e1
              · rw [if_pos hee] at h
                simp only [Except.ok.injEq, Prod.mk.injEq] at h
                obtain ⟨hf, hst⟩ := h
                subst hf
                refine ⟨rfl, hst.symm, fun e e2 hpe2 he2 => ?_⟩
                injection hpe2 with hpe2
                injection he2 with he2
                rw [← he2, ← hpe2, hee]
              · rw [if_neg hee] at h
                cases h

/-- A conflicting merge raises the transform conflict error. -/
theorem effectMerge_conflict (z : ZodType) (pp sp : List String)
    (frag : JVal) (st1 : SchemaState)
    (h0 : st1.effectType = some .input) :
    effectMerge z (some .output) pp sp (.ok (frag, st1)) =
      .error (throwTransformError z { st1 with path := pp ++ sp }) := by
  simp [effectMerge, h0]

/-- Chaining the weak effect-type evolution across two steps. -/
theorem effChain {a b c : Option EffectType}
    (h1 : b = a ∨ b = some .input) (h2 : c = b ∨ c = some .input) :
    c = a ∨ c = some .input := by
  rcases h2 with h2 | h2
  · rcases h1 with h1 | h1
    · exact Or.inl (h2.trans h1)
    · exact Or.inr (h2.trans h1)
  · exact Or.inr h2

/-- The effect-type discipline of one traversal: every converter either
leaves the recorded effect type unchanged or records `input`, and the
dispatcher, when it succeeds, never changes an already-recorded value. -/
theorem effectType_invariant (fuel : Nat) :
    (∀ z st sp f st', createSchemaObject fuel z st sp = .ok (f, st') →
      (st'.effectType = st.effectType ∨ st'.effectType = some .input) ∧
      ∀ e, st.effectType = some e → st'.effectType = some e) ∧
    (∀ z st f st', createSchemaInline fuel z st = .ok (f, st') →
      st'.effectType = st.effectType ∨ st'.effectType = some .input) ∧
    (∀ z st f st', createObjectSchema fuel z st = .ok (f, st') →
      st'.effectType = st.effectType ∨ st'.effectType = some .input) ∧
    (∀ z b st r st', createExtendedSchema fuel z b st = .ok (r, st') →
      st'.effectType = st.effectType ∨ st'.effectType = some .input) ∧
    (∀ shape opts st f st',
      createObjectSchemaFromShape fuel shape opts st = .ok (f, st') →
      st'.effectType = st.effectType ∨ st'.effectType = some .input) ∧
    (∀ shape st acc r st',
      mapPropertiesGo fuel shape st acc = .ok (r, st') →
      st'.effectType = st.effectType ∨ st'.effectType = some .input) ∧
    (∀ shape st r st', mapProperties fuel shape st = .ok (r, st') →
      st'.effectType = st.effectType ∨ st'.effectType = some .input) ∧
    (∀ z st f st', createTransformSchema fuel z st = .ok (f, st') →
      st'.effectType = st.effectType ∨ st'.effectType = some .input) ∧
    (∀ d opts st f st',
      createDiscriminatedUnionSchema fuel d opts st = .ok (f, st') →
      st'.effectType = st.effectType ∨ st'.effectType = some .input) ∧
    (∀ opts st r st', oneOfGo fuel opts st = .ok (r, st') →
      st'.effectType = st.effectType ∨ st'.effectType = some .input) := by
  induction fuel with
  | zero =>
      exact ⟨fun z st sp f st' h => by simp [createSchemaObject] at h,
        fun z st f st' h => by simp [createSchemaInline] at h,
        fun z st f st' h => by simp [createObjectSchema] at h,
        fun z b st r st' h => by simp [createExtendedSchema] at h,
        fun shape opts st f st' h => by
          simp [createObjectSchemaFromShape] at h,
        fun shape st acc r st' h => by simp [mapPropertiesGo] at h,
        fun shape st r st' h => by simp [mapProperties] at h,
        fun z st f st' h => by simp [createTransformSchema] at h,
        fun d opts st f st' h => by
          simp [createDiscriminatedUnionSchema] at h,
        fun opts st r st' h => by simp [oneOfGo] at h⟩
  | succ n ih =>
      obtain ⟨ihso, ihin, ihob, ihex, ihfs, ihgo, ihmp, ihtr, ihdu,
        ihoo⟩ := ih
      have hso : ∀ z st sp f st',
          createSchemaObject (n + 1) z st sp = .ok (f, st') →
          (st'.effectType = st.effectType ∨
            st'.effectType = some .input) ∧
          ∀ e, st.effectType = some e → st'.effectType = some e := by
        intro z st sp f st' h
        unfold createSchemaObject at h
        simp only [] at h
        obtain ⟨st1, hres, hst', hpe⟩ := effectMerge_ok _ _ _ _ _ _ _ h
        have hweak : st1.effectType = st.effectType ∨
            st1.effectType = some .input := by
          split at hres
          · simp only [Except.ok.injEq, Prod.mk.injEq] at hres
            rw [← hres.2]
            exact Or.inl rfl
          · split at hres
            · cases hres
            · next heq =>
                simp only [Except.ok.injEq, Prod.mk.injEq] at hres
                rw [← hres.2]
                have hw9 := ihin _ _ _ _ heq
                exact hw9
          · split at hres
            · split at hres
              · cases hres
              · next heq =>
                  simp only [Except.ok.injEq, Prod.mk.injEq] at hres
                  rw [← hres.2]
                  have hw9 := ihin _ _ _ _ heq
                  exact hw9
            · have hw9 := ihin _ _ _ _ hres
              exact hw9
        have hse : st'.effectType = st1.effectType := by
          rw [hst']
        refine ⟨?_, fun e he => ?_⟩
        · rw [hse]
          exact hweak
        · rcases hweak with hv | hv
          · rw [hse, hv, he]
          · rw [hse, hv, hpe e .input he hv]
      have hin : ∀ z st f st',
          createSchemaInline (n + 1) z st = .ok (f, st') →
          st'.effectType = st.effectType ∨
            st'.effectType = some .input := by
        intro z st f st' h
        unfold createSchemaInline at h
        cases z with
        | string nid meta =>
            simp only [Except.ok.injEq, Prod.mk.injEq] at h
            rw [← h.2]
            exact Or.inl rfl
        | never nid meta =>
            rw [createManualTypeSchema_ok _ _ _ _ h]
            exact Or.inl rfl
        | literal nid v meta =>
            simp only [Except.ok.injEq, Prod.mk.injEq] at h
            rw [← h.2]
            exact Or.inl rfl
        | enum nid vs meta =>
            simp only [Except.ok.injEq, Prod.mk.injEq] at h
            rw [← h.2]
            exact Or.inl rfl
        | optional nid inner meta => exact (ihso _ _ _ _ _ h).1
        | withDefault nid inner meta => exact (ihso _ _ _ _ _ h).1
        | object nid shape uk ca ext meta => exact ihob _ _ _ _ h
        | transform nid inner meta => exact ihtr _ _ _ _ h
        | discriminatedUnion nid d options meta => exact ihdu _ _ _ _ _ h
      have hob : ∀ z st f st',
          createObjectSchema (n + 1) z st = .ok (f, st') →
          st'.effectType = st.effectType ∨
            st'.effectType = some .input := by
        intro z st f st' h
        unfold createObjectSchema at h
        split at h
        · cases h
        · next heq =>
            simp only [Except.ok.injEq, Prod.mk.injEq] at h
            rw [← h.2]
            have hw9 := ihex _ _ _ _ _ heq
            exact hw9
        · next heq => exact effChain (ihex _ _ _ _ _ heq) (ihfs _ _ _ _ _ h)
      have hex : ∀ z b st r st',
          createExtendedSchema (n + 1) z b st = .ok (r, st') →
          st'.effectType = st.effectType ∨
            st'.effectType = some .input := by
        intro z b st r st' h
        unfold createExtendedSchema at h
        cases b with
        | none =>
            simp only [Except.ok.injEq, Prod.mk.injEq] at h
            rw [← h.2]
            exact Or.inl rfl
        | some base =>
            simp only [] at h
            split at h
            · cases h
            · next stA hforced =>
                have hA : stA.effectType = st.effectType ∨
                    stA.effectType = some .input := by
                  split at hforced
                  · split at hforced
                    · cases hforced
                    · next heq =>
                        injection hforced with hforced
                        rw [← hforced]
                        have hw9 := (ihso _ _ _ _ _ heq).1
                        exact hw9
                  · injection hforced with hforced
                    rw [← hforced]
                    exact Or.inl rfl
                split at h
                · simp only [Except.ok.injEq, Prod.mk.injEq] at h
                  rw [← h.2]
                  exact hA
                · split at h
                  · simp only [Except.ok.injEq, Prod.mk.injEq] at h
                    rw [← h.2]
                    exact hA
                  · split at h
                    · simp only [Except.ok.injEq, Prod.mk.injEq] at h
                      rw [← h.2]
                      exact hA
                    · split at h
                      · cases h
                      · next heq =>
                          simp only [Except.ok.injEq, Prod.mk.injEq] at h
                          rw [← h.2]
                          have hw9 := effChain hA (ihfs _ _ _ _ _ heq)
                          exact hw9
      have hfs : ∀ shape opts st f st',
          createObjectSchemaFromShape (n + 1) shape opts st =
            .ok (f, st') →
          st'.effectType = st.effectType ∨
            st'.effectType = some .input := by
        intro shape opts st f st' h
        unfold createObjectSchemaFromShape at h
        split at h
        · cases h
        · next heq =>
            have hA := ihmp _ _ _ _ heq
            simp only [] at h
            split at h
            · simp only [Except.ok.injEq, Prod.mk.injEq] at h
              rw [← h.2]
              exact hA
            · split at h
              · cases h
              · next heq2 =>
                  simp only [Except.ok.injEq, Prod.mk.injEq] at h
                  rw [← h.2]
                  have hw9 := effChain hA (ihso _ _ _ _ _ heq2).1
                  exact hw9
      have hgo : ∀ shape st acc r st',
          mapPropertiesGo (n + 1) shape st acc = .ok (r, st') →
          st'.effectType = st.effectType ∨
            st'.effectType = some .input := by
        intro shape st acc r st' h
        unfold mapPropertiesGo at h
        cases shape with
        | nil =>
            simp only [Except.ok.injEq, Prod.mk.injEq] at h
            rw [← h.2]
            exact Or.inl rfl
        | cons kv rest =>
            cases kv with
            | mk key zs =>
                simp only [] at h
                split at h
                · cases h
                · next heq =>
                    have hw9 := effChain (ihso _ _ _ _ _ heq).1
                      (ihgo _ _ _ _ _ h)
                    exact hw9
      have hmp : ∀ shape st r st',
          mapProperties (n + 1) shape st = .ok (r, st') →
          st'.effectType = st.effectType ∨
            st'.effectType = some .input := by
        intro shape st r st' h
        unfold mapProperties at h
        split at h
        · cases h
        · next heq =>
            simp only [Except.ok.injEq, Prod.mk.injEq] at h
            rw [← h.2]
            have hw9 := ihgo _ _ _ _ _ heq
            exact hw9
      have htr : ∀ z st f st',
          createTransformSchema (n + 1) z st = .ok (f, st') →
          st'.effectType = st.effectType ∨
            st'.effectType = some .input := by
        intro z st f st' h
        unfold createTransformSchema at h
        split at h
        · rw [createManualTypeSchema_ok _ _ _ _ h]
          exact Or.inl rfl
        · split at h
          · have hw9 := (ihso _ _ _ _ _ h).1
            exact hw9
          · split at h
            · rw [createManualTypeSchema_ok _ _ _ _ h]
              exact Or.inl rfl
            · have hw9 := (ihso _ _ _ _ _ h).1
              rcases hw9 with hv | hv
              · exact Or.inr hv
              · exact Or.inr hv
      have hdu : ∀ d opts st f st',
          createDiscriminatedUnionSchema (n + 1) d opts st =
            .ok (f, st') →
          st'.effectType = st.effectType ∨
            st'.effectType = some .input := by
        intro d opts st f st' h
        unfold createDiscriminatedUnionSchema at h
        split at h
        · cases h
        · next heq =>
            have hA := ihoo _ _ _ _ heq
            split at h <;>
              · simp only [Except.ok.injEq, Prod.mk.injEq] at h
                rw [← h.2]
                exact hA
      have hoo : ∀ opts st r st', oneOfGo (n + 1) opts st = .ok (r, st') →
          st'.effectType = st.effectType ∨
            st'.effectType = some .input := by
        intro opts st r st' h
        unfold oneOfGo at h
        cases opts with
        | nil =>
            simp only [Except.ok.injEq, Prod.mk.injEq] at h
            rw [← h.2]
            exact Or.inl rfl
        | cons z rest =>
            simp only [] at h
            split at h
            · cases h
            · next heq =>
                split at h
                · cases h
                · next heq2 =>
                    simp only [Except.ok.injEq, Prod.mk.injEq] at h
                    rw [← h.2]
                    have hw9 := effChain (ihso _ _ _ _ _ heq).1
                      (ihoo _ _ _ _ heq2)
                    exact hw9
      exact ⟨hso, hin, hob, hex, hfs, hgo, hmp, htr, hdu, hoo⟩

/-- C1: the claim states that for an object shape with zero fields neither
`properties` nor `required` is present.  The code omits `required`, but
emits `properties: {}`: `mapProperties` always returns a defined (hence
truthy) object, so the `properties && { properties }` guard in
`createObjectSchemaFromShape` never omits the key.  This theorem evaluates
the code at the failing input: the empty shape with the default options. -/
theorem c1_empty_shape_emits_empty_properties :
    createObjectSchemaFromShape 3 [] ⟨.strip, .never 0 {}⟩
        { components := ⟨[]⟩, type := .input } =
      .ok (.obj [(("type"), .str ("object")), (("properties"), .obj [])],
        { components := ⟨[]⟩, type := .input }) ∧
    (JVal.obj [(("type"), .str ("object")),
      (("properties"), .obj [])]).getField ("properties") =
        some (.obj []) ∧
    (JVal.obj [(("type"), .str ("object")),
      (("properties"), .obj [])]).getField ("required") = none := by
  refine ⟨?_, by simp [JVal.getField, lookupKey], by simp [JVal.getField, lookupKey]⟩
  simp [createObjectSchemaFromShape, mapProperties, mapPropertiesGo,
    mapRequired, ZodType.isNever, setKey]

/-! ### C3 -/

/-- C3: `createTransformSchema` resolves a transform in first-match-wins
order: declared effect `output` yields the manual type; declared `input`
recurses into the wrapped schema; an ambient `output` context yields the
manual type; otherwise the state records effect `input` and the converter
recurses into the wrapped schema. -/
theorem c3_transform_resolution_order (fuel : Nat) (z : ZodType)
    (st : SchemaState) :
    (z.meta.effectType = some .output →
      createTransformSchema (fuel + 1) z st = createManualTypeSchema z st) ∧
    (z.meta.effectType = some .input →
      createTransformSchema (fuel + 1) z st =
        createSchemaObject fuel z.innerOf st [("transform input")]) ∧
    (z.meta.effectType = none → st.type = .output →
      createTransformSchema (fuel + 1) z st = createManualTypeSchema z st) ∧
    (z.meta.effectType = none → st.type = .input →
      createTransformSchema (fuel + 1) z st =
        createSchemaObject fuel z.innerOf
          { st with effectType := some .input } [("transform input")]) := by
  refine ⟨fun h1 => ?_, fun h2 => ?_, fun h3 h4 => ?_, fun h5 h6 => ?_⟩ <;>
    unfold createTransformSchema <;> simp_all

/-- Witness for C3: the four resolution branches at concrete transforms. -/
theorem c3_transform_resolution_order_witness :
    createTransformSchema 3
        (.transform 1 (.string 2 {}) { effectType := some .output })
        { components := ⟨[]⟩, type := .input } =
      createManualTypeSchema
        (.transform 1 (.string 2 {}) { effectType := some .output })
        { components := ⟨[]⟩, type := .input } ∧
    createTransformSchema 3
        (.transform 1 (.string 2 {}) { effectType := some .input })
        { components := ⟨[]⟩, type := .input } =
      createSchemaObject 2 (.string 2 {})
        { components := ⟨[]⟩, type := .input } [("transform input")] ∧
    createTransformSchema 3 (.transform 1 (.string 2 {}) {})
        { components := ⟨[]⟩, type := .output } =
      createManualTypeSchema (.transform 1 (.string 2 {}) {})
        { components := ⟨[]⟩, type := .output } ∧
    createTransformSchema 3 (.transform 1 (.string 2 {}) {})
        { components := ⟨[]⟩, type := .input } =
      createSchemaObject 2 (.string 2 {})
        { components := ⟨[]⟩, type := .input,
          effectType := some .input } [("transform input")] :=
  ⟨(c3_transform_resolution_order 2 _ _).1 rfl,
   (c3_transform_resolution_order 2 _ _).2.1 rfl,
   (c3_transform_resolution_order 2 _ _).2.2.1 rfl rfl,
   (c3_transform_resolution_order 2 _ _).2.2.2 rfl rfl⟩

/-! ### C8 -/

/-- C8: the `required` list keeps exactly the field names whose schemas
are not optional under the current directional state, as a subsequence of
the shape's declaration order, and is omitted exactly when every field is
optional. -/
theorem c8_map_required_exact (shape : List (String × ZodType))
    (state : SchemaState) :
    (∀ l, mapRequired shape state = some l →
      l.Sublist (shape.map Prod.fst) ∧
      ∀ k, k ∈ l ↔ ∃ v, (k, v) ∈ shape ∧ isOptionalSchema v state = false) ∧
    (mapRequired shape state = none ↔
      ∀ kv ∈ shape, isOptionalSchema kv.2 state = true) := by
  have hreq : mapRequired shape state =
      if ((shape.filter fun kv =>
            ! isOptionalSchema kv.2 state).map Prod.fst).isEmpty then none
      else some ((shape.filter fun kv =>
            ! isOptionalSchema kv.2 state).map Prod.fst) := rfl
  rw [hreq]
  set r := (shape.filter fun kv =>
    ! isOptionalSchema kv.2 state).map Prod.fst with hr
  have hiff : r.isEmpty = true ↔
      ∀ kv ∈ shape, isOptionalSchema kv.2 state = true := by
    rw [hr, List.isEmpty_iff, List.map_eq_nil_iff, List.filter_eq_nil_iff]
    simp
  by_cases hemp : r.isEmpty = true
  · rw [if_pos hemp]
    exact ⟨fun l hl => absurd hl (by simp),
      ⟨fun _ => hiff.mp hemp, fun _ => rfl⟩⟩
  · rw [if_neg hemp]
    constructor
    · intro l hl
      have hrl : r = l := by injection hl
      subst hrl
      constructor
      · exact (List.filter_sublist shape).map Prod.fst
      · intro k
        rw [hr]
        simp only [List.mem_map, List.mem_filter]
        constructor
        · rintro ⟨⟨k0, v⟩, ⟨hin, hopt⟩, rfl⟩
          exact ⟨v, hin, by simpa using hopt⟩
        · rintro ⟨v, hin, hopt⟩
          exact ⟨(k, v), ⟨hin, by simpa using hopt⟩, rfl⟩
    · constructor
      · intro h
        exact absurd h (by simp)
      · intro hall
        exact absurd (hiff.mpr hall) hemp

/-! ### Path independence of conversion -/

/-- Optionality only consults the directional context. -/
theorem isOptionalSchema_congr (z : ZodType) (s t : SchemaState)
    (h : s.type = t.type) : isOptionalSchema z s = isOptionalSchema z t := by
  cases z <;> simp [isOptionalSchema, h]

/-- The required list only consults the directional context. -/
theorem mapRequired_congr (shape : List (String × ZodType))
    (s t : SchemaState) (h : s.type = t.type) :
    mapRequired shape s = mapRequired shape t := by
  unfold mapRequired
  have hfil : (shape.filter fun kv => ! isOptionalSchema kv.2 s) =
      shape.filter fun kv => ! isOptionalSchema kv.2 t := by
    apply List.filter_congr
    intro kv _
    rw [isOptionalSchema_congr kv.2 s t h]
  rw [hfil]

/-- The manual type resolver respects state equivalence. -/
theorem createManualTypeSchema_rel (z : ZodType) (s t : SchemaState)
    (h : EqNoPath s t) :
    RelRes (createManualTypeSchema z s) (createManualTypeSchema z t) := by
  unfold createManualTypeSchema
  cases z.meta.manualType with
  | some ty => exact ⟨rfl, h⟩
  | none => trivial

/-- The merge step respects the outcome relation. -/
theorem effectMerge_rel (z : ZodType) (pe : Option EffectType)
    (pp sp qq sq : List String)
    (r1 r2 : Except SchemaError (JVal × SchemaState))
    (hr : RelRes r1 r2) :
    RelRes (effectMerge z pe pp sp r1) (effectMerge z pe qq sq r2) := by
  cases r1 with
  | error e1 =>
      cases r2 with
      | error e2 => trivial
      | ok pr2 => exact absurd hr (by simp [RelRes])
  | ok pr1 =>
      cases r2 with
      | error e2 =>
          obtain ⟨a1, s1⟩ := pr1
          exact absurd hr (by simp [RelRes])
      | ok pr2 =>
          obtain ⟨a1, s1⟩ := pr1
          obtain ⟨a2, s2⟩ := pr2
          obtain ⟨ha, hc, ht, he⟩ := hr
          subst ha
          simp only [effectMerge, ← he]
          cases pe with
          | none =>
              cases hs1 : s1.effectType <;>
                · dsimp only
                  exact ⟨rfl, hc, ht, rfl⟩
          | some e0 =>
              cases hs1 : s1.effectType with
              | none =>
                  dsimp only
                  exact ⟨rfl, hc, ht, rfl⟩
              | some e1 =>
                  dsimp only
                  by_cases hee : e0 = e1
                  · rw [if_pos hee, if_pos hee]
                    exact ⟨rfl, hc, ht, rfl⟩
                  · rw [if_neg hee, if_neg hee]
                    trivial

/-- Conversion is deterministic up to the breadcrumb path: from states
that agree on the registry, the direction and the recorded effect type,
every converter produces the same payload and equally-agreeing states, or
fails on both sides. -/
theorem conversion_path_independent (fuel : Nat) :
    (∀ z s t sp sq, EqNoPath s t →
      RelRes (createSchemaObject fuel z s sp)
        (createSchemaObject fuel z t sq)) ∧
    (∀ z s t, EqNoPath s t →
      RelRes (createSchemaInline fuel z s) (createSchemaInline fuel z t)) ∧
    (∀ z s t, EqNoPath s t →
      RelRes (createObjectSchema fuel z s) (createObjectSchema fuel z t)) ∧
    (∀ z b s t, EqNoPath s t →
      RelRes (createExtendedSchema fuel z b s)
        (createExtendedSchema fuel z b t)) ∧
    (∀ shape opts s t, EqNoPath s t →
      RelRes (createObjectSchemaFromShape fuel shape opts s)
        (createObjectSchemaFromShape fuel shape opts t)) ∧
    (∀ shape s t acc, EqNoPath s t →
      RelRes (mapPropertiesGo fuel shape s acc)
        (mapPropertiesGo fuel shape t acc)) ∧
    (∀ shape s t, EqNoPath s t →
      RelRes (mapProperties fuel shape s) (mapProperties fuel shape t)) ∧
    (∀ z s t, EqNoPath s t →
      RelRes (createTransformSchema fuel z s)
        (createTransformSchema fuel z t)) ∧
    (∀ d opts s t, EqNoPath s t →
      RelRes (createDiscriminatedUnionSchema fuel d opts s)
        (createDiscriminatedUnionSchema fuel d opts t)) ∧
    (∀ opts s t, EqNoPath s t →
      RelRes (oneOfGo fuel opts s) (oneOfGo fuel opts t)) := by
  induction fuel with
  | zero =>
      refine ⟨fun z s t sp sq h => ?_, fun z s t h => ?_, fun z s t h => ?_,
        fun z b s t h => ?_, fun shape opts s t h => ?_,
        fun shape s t acc h => ?_, fun shape s t h => ?_,
        fun z s t h => ?_, fun d opts s t h => ?_, fun opts s t h => ?_⟩ <;>
        simp [createSchemaObject, createSchemaInline, createObjectSchema,
          createExtendedSchema, createObjectSchemaFromShape,
          mapPropertiesGo, mapProperties, createTransformSchema,
          createDiscriminatedUnionSchema, oneOfGo, RelRes]
  | succ n ih =>
      obtain ⟨ihso, ihin, ihob, ihex, ihfs, ihgo, ihmp, ihtr, ihdu,
        ihoo⟩ := ih
      have hso : ∀ z s t sp sq, EqNoPath s t →
          RelRes (createSchemaObject (n + 1) z s sp)
            (createSchemaObject (n + 1) z t sq) := by
        intro z s t sp sq h
        obtain ⟨hc, ht, he⟩ := h
        unfold createSchemaObject
        simp only [← hc, ← he]
        cases hreg : s.components.getSchema z.nid with
        | some comp =>
            cases comp with
            | complete r s0 =>
                apply effectMerge_rel
                dsimp only
                exact ⟨rfl, rfl, ht, rfl⟩
            | manual r =>
                apply effectMerge_rel
                dsimp only
                have hrel := ihin z
                  ⟨s.components, s.type, s.effectType, s.path ++ sp⟩
                  ⟨s.components, t.type, s.effectType, t.path ++ sq⟩
                  ⟨rfl, ht, rfl⟩
                cases h1 : createSchemaInline n z
                    ⟨s.components, s.type, s.effectType,
                      s.path ++ sp⟩ with
                | error e1 =>
                    cases h2 : createSchemaInline n z
                        ⟨s.components, t.type, s.effectType,
                          t.path ++ sq⟩ with
                    | error e2 => trivial
                    | ok pr2 =>
                        rw [h1, h2] at hrel
                        exact absurd hrel (by simp [RelRes])
                | ok pr1 =>
                    obtain ⟨f1, s1⟩ := pr1
                    cases h2 : createSchemaInline n z
                        ⟨s.components, t.type, s.effectType,
                          t.path ++ sq⟩ with
                    | error e2 =>
                        rw [h1, h2] at hrel
                        exact absurd hrel (by simp [RelRes])
                    | ok pr2 =>
                        obtain ⟨f2, s2⟩ := pr2
                        rw [h1, h2] at hrel
                        simp only [RelRes] at hrel
                        obtain ⟨hf, hc2, ht2, he2⟩ := hrel
                        subst hf
                        exact ⟨rfl, by rw [hc2], ht2, he2⟩
        | none =>
            cases href : z.meta.ref with
            | some r =>
                apply effectMerge_rel
                dsimp only
                have hrel := ihin z
                  ⟨s.components.setSchema z.nid (.manual r), s.type,
                    s.effectType, s.path ++ sp⟩
                  ⟨s.components.setSchema z.nid (.manual r), t.type,
                    s.effectType, t.path ++ sq⟩
                  ⟨rfl, ht, rfl⟩
                cases h1 : createSchemaInline n z
                    ⟨s.components.setSchema z.nid (.manual r), s.type,
                      s.effectType, s.path ++ sp⟩ with
                | error e1 =>
                    cases h2 : createSchemaInline n z
                        ⟨s.components.setSchema z.nid (.manual r), t.type,
                          s.effectType, t.path ++ sq⟩ with
                    | error e2 => trivial
                    | ok pr2 =>
                        rw [h1, h2] at hrel
                        exact absurd hrel (by simp [RelRes])
                | ok pr1 =>
                    obtain ⟨f1, s1⟩ := pr1
                    cases h2 : createSchemaInline n z
                        ⟨s.components.setSchema z.nid (.manual r), t.type,
                          s.effectType, t.path ++ sq⟩ with
                    | error e2 =>
                        rw [h1, h2] at hrel
                        exact absurd hrel (by simp [RelRes])
                    | ok pr2 =>
                        obtain ⟨f2, s2⟩ := pr2
                        rw [h1, h2] at hrel
                        simp only [RelRes] at hrel
                        obtain ⟨hf, hc2, ht2, he2⟩ := hrel
                        subst hf
                        exact ⟨rfl, by rw [hc2], ht2, he2⟩
            | none =>
                apply effectMerge_rel
                exact ihin z _ _ ⟨rfl, ht, rfl⟩
      have hin : ∀ z s t, EqNoPath s t →
          RelRes (createSchemaInline (n + 1) z s)
            (createSchemaInline (n + 1) z t) := by
        intro z s t h
        unfold createSchemaInline
        cases z with
        | string nid meta => exact ⟨rfl, h⟩
        | never nid meta => exact createManualTypeSchema_rel _ s t h
        | literal nid v meta => exact ⟨rfl, h⟩
        | enum nid vs meta => exact ⟨rfl, h⟩
        | optional nid inner meta => exact ihso inner s t _ _ h
        | withDefault nid inner meta => exact ihso inner s t _ _ h
        | object nid shape uk ca ext meta => exact ihob _ s t h
        | transform nid inner meta => exact ihtr _ s t h
        | discriminatedUnion nid d options meta => exact ihdu d options s t h
      have hob : ∀ z s t, EqNoPath s t →
          RelRes (createObjectSchema (n + 1) z s)
            (createObjectSchema (n + 1) z t) := by
        intro z s t h
        unfold createObjectSchema
        have hrel := ihex z z.extendsOf s t h
        cases h1 : createExtendedSchema n z z.extendsOf s with
        | error e1 =>
            cases h2 : createExtendedSchema n z z.extendsOf t with
            | error e2 => trivial
            | ok pr2 =>
                rw [h1, h2] at hrel
                exact absurd hrel (by simp [RelRes])
        | ok pr1 =>
            obtain ⟨ov1, s1⟩ := pr1
            cases h2 : createExtendedSchema n z z.extendsOf t with
            | error e2 =>
                rw [h1, h2] at hrel
                exact absurd hrel (by simp [RelRes])
            | ok pr2 =>
                obtain ⟨ov2, s2⟩ := pr2
                rw [h1, h2] at hrel
                simp only [RelRes] at hrel
                obtain ⟨hov, hrest⟩ := hrel
                subst hov
                cases ov1 with
                | some ext => exact ⟨rfl, hrest⟩
                | none => exact ihfs _ _ s1 s2 hrest
      have hex : ∀ z b s t, EqNoPath s t →
          RelRes (createExtendedSchema (n + 1) z b s)
            (createExtendedSchema (n + 1) z b t) := by
        intro z b s t h
        obtain ⟨hc, ht, he⟩ := h
        unfold createExtendedSchema
        cases b with
        | none => exact ⟨rfl, hc, ht, he⟩
        | some base =>
            simp only [← hc]
            by_cases hcnd : (s.components.getSchema base.nid).isSome = true ∨
                jsTruthyStr base.meta.ref = true
            · rw [if_pos hcnd, if_pos hcnd]
              have hrelF := ihso base s t [("extended schema")]
                [("extended schema")] ⟨hc, ht, he⟩
              cases h1 : createSchemaObject n base s
                  [("extended schema")] with
              | error e1 =>
                  cases h2 : createSchemaObject n base t
                      [("extended schema")] with
                  | error e2 => trivial
                  | ok pr2 =>
                      rw [h1, h2] at hrelF
                      exact absurd hrelF (by simp [RelRes])
              | ok pr1 =>
                  obtain ⟨g1, sA⟩ := pr1
                  cases h2 : createSchemaObject n base t
                      [("extended schema")] with
                  | error e2 =>
                      rw [h1, h2] at hrelF
                      exact absurd hrelF (by simp [RelRes])
                  | ok pr2 =>
                      obtain ⟨g2, tA⟩ := pr2
                      rw [h1, h2] at hrelF
                      simp only [RelRes] at hrelF
                      obtain ⟨hg, hcA, htA, heA⟩ := hrelF
                      dsimp only
                      simp only [← hcA]
                      cases hcc : sA.components.getSchema base.nid with
                      | none => exact ⟨rfl, hcA, htA, heA⟩
                      | some comp =>
                          dsimp only
                          cases hdo : createDiffOpts
                              { unknownKeys := base.unknownKeysOf,
                                catchAll := base.catchallOf }
                              { unknownKeys := z.unknownKeysOf,
                                catchAll := z.catchallOf } with
                          | none => exact ⟨rfl, hcA, htA, heA⟩
                          | some diffOpts =>
                              dsimp only
                              cases hsd : createShapeDiff base.shapeOf
                                  z.shapeOf with
                              | none => exact ⟨rfl, hcA, htA, heA⟩
                              | some diffShape =>
                                  dsimp only
                                  have hrelS := ihfs diffShape diffOpts
                                    sA tA ⟨hcA, htA, heA⟩
                                  cases h3 : createObjectSchemaFromShape n
                                      diffShape diffOpts sA with
                                  | error e3 =>
                                      cases h4 : createObjectSchemaFromShape
                                          n diffShape diffOpts tA with
                                      | error e4 => trivial
                                      | ok pr4 =>
                                          rw [h3, h4] at hrelS
                                          exact absurd hrelS
                                            (by simp [RelRes])
                                  | ok pr3 =>
                                      obtain ⟨S1, sB⟩ := pr3
                                      cases h4 : createObjectSchemaFromShape
                                          n diffShape diffOpts tA with
                                      | error e4 =>
                                          rw [h3, h4] at hrelS
                                          exact absurd hrelS
                                            (by simp [RelRes])
                                      | ok pr4 =>
                                          obtain ⟨S2, tB⟩ := pr4
                                          rw [h3, h4] at hrelS
                                          simp only [RelRes] at hrelS
                                          obtain ⟨hS, hrest⟩ := hrelS
                                          subst hS
                                          exact ⟨rfl, hrest⟩
            · rw [if_neg hcnd, if_neg hcnd]
              dsimp only
              simp only [← hc]
              cases hcc : s.components.getSchema base.nid with
              | none => exact ⟨rfl, hc, ht, he⟩
              | some comp =>
                  dsimp only
                  cases hdo : createDiffOpts
                      { unknownKeys := base.unknownKeysOf,
                        catchAll := base.catchallOf }
                      { unknownKeys := z.unknownKeysOf,
                        catchAll := z.catchallOf } with
                  | none => exact ⟨rfl, hc, ht, he⟩
                  | some diffOpts =>
                      dsimp only
                      cases hsd : createShapeDiff base.shapeOf
                          z.shapeOf with
                      | none => exact ⟨rfl, hc, ht, he⟩
                      | some diffShape =>
                          dsimp only
                          have hrelS := ihfs diffShape diffOpts s t
                            ⟨hc, ht, he⟩
                          cases h3 : createObjectSchemaFromShape n
                              diffShape diffOpts s with
                          | error e3 =>
                              cases h4 : createObjectSchemaFromShape n
                                  diffShape diffOpts t with
                              | error e4 => trivial
                              | ok pr4 =>
                                  rw [h3, h4] at hrelS
                                  exact absurd hrelS (by simp [RelRes])
                          | ok pr3 =>
                              obtain ⟨S1, sB⟩ := pr3
                              cases h4 : createObjectSchemaFromShape n
                                  diffShape diffOpts t with
                              | error e4 =>
                                  rw [h3, h4] at hrelS
                                  exact absurd hrelS (by simp [RelRes])
                              | ok pr4 =>
                                  obtain ⟨S2, tB⟩ := pr4
                                  rw [h3, h4] at hrelS
                                  simp only [RelRes] at hrelS
                                  obtain ⟨hS, hrest⟩ := hrelS
                                  subst hS
                                  exact ⟨rfl, hrest⟩
      have hfs : ∀ shape opts s t, EqNoPath s t →
          RelRes (createObjectSchemaFromShape (n + 1) shape opts s)
            (createObjectSchemaFromShape (n + 1) shape opts t) := by
        intro shape opts s t h
        unfold createObjectSchemaFromShape
        have hrel := ihmp shape s t h
        cases h1 : mapProperties n shape s with
        | error e1 =>
            cases h2 : mapProperties n shape t with
            | error e2 => trivial
            | ok pr2 =>
                rw [h1, h2] at hrel
                exact absurd hrel (by simp [RelRes])
        | ok pr1 =>
            obtain ⟨p1, s1⟩ := pr1
            cases h2 : mapProperties n shape t with
            | error e2 =>
                rw [h1, h2] at hrel
                exact absurd hrel (by simp [RelRes])
            | ok pr2 =>
                obtain ⟨p2, s2⟩ := pr2
                rw [h1, h2] at hrel
                simp only [RelRes] at hrel
                obtain ⟨hp, hc2, ht2, he2⟩ := hrel
                subst hp
                dsimp only
                rw [show mapRequired shape s2 = mapRequired shape s1 from
                  (mapRequired_congr shape s1 s2 ht2).symm]
                by_cases hnev : opts.catchAll.isNever = true
                · rw [if_pos hnev, if_pos hnev]
                  exact ⟨rfl, hc2, ht2, he2⟩
                · rw [if_neg hnev, if_neg hnev]
                  have hrelA := ihso opts.catchAll s1 s2
                    [("additional properties")] [("additional properties")]
                    ⟨hc2, ht2, he2⟩
                  cases h3 : createSchemaObject n opts.catchAll s1
                      [("additional properties")] with
                  | error e3 =>
                      cases h4 : createSchemaObject n opts.catchAll s2
                          [("additional properties")] with
                      | error e4 => trivial
                      | ok pr4 =>
                          rw [h3, h4] at hrelA
                          exact absurd hrelA (by simp [RelRes])
                  | ok pr3 =>
                      obtain ⟨ap1, sB⟩ := pr3
                      cases h4 : createSchemaObject n opts.catchAll s2
                          [("additional properties")] with
                      | error e4 =>
                          rw [h3, h4] at hrelA
                          exact absurd hrelA (by simp [RelRes])
                      | ok pr4 =>
                          obtain ⟨ap2, tB⟩ := pr4
                          rw [h3, h4] at hrelA
                          simp only [RelRes] at hrelA
                          obtain ⟨hap, hrest⟩ := hrelA
                          subst hap
                          exact ⟨rfl, hrest⟩
      have hgo : ∀ shape s t acc, EqNoPath s t →
          RelRes (mapPropertiesGo (n + 1) shape s acc)
            (mapPropertiesGo (n + 1) shape t acc) := by
        intro shape s t acc h
        unfold mapPropertiesGo
        cases shape with
        | nil => exact ⟨rfl, h⟩
        | cons kv rest =>
            obtain ⟨key, zs⟩ := kv
            dsimp only
            have hrel := ihso zs s t [("property: ") ++ key]
              [("property: ") ++ key] h
            cases h1 : createSchemaObject n zs s
                [("property: ") ++ key] with
            | error e1 =>
                cases h2 : createSchemaObject n zs t
                    [("property: ") ++ key] with
                | error e2 => trivial
                | ok pr2 =>
                    rw [h1, h2] at hrel
                    exact absurd hrel (by simp [RelRes])
            | ok pr1 =>
                obtain ⟨f1, s1⟩ := pr1
                cases h2 : createSchemaObject n zs t
                    [("property: ") ++ key] with
                | error e2 =>
                    rw [h1, h2] at hrel
                    exact absurd hrel (by simp [RelRes])
                | ok pr2 =>
                    obtain ⟨f2, s2⟩ := pr2
                    rw [h1, h2] at hrel
                    simp only [RelRes] at hrel
                    obtain ⟨hf, hrest⟩ := hrel
                    subst hf
                    exact ihgo rest s1 s2 (setKey acc key f1) hrest
      have hmp : ∀ shape s t, EqNoPath s t →
          RelRes (mapProperties (n + 1) shape s)
            (mapProperties (n + 1) shape t) := by
        intro shape s t h
        unfold mapProperties
        have hrel := ihgo shape s t [] h
        cases h1 : mapPropertiesGo n shape s [] with
        | error e1 =>
            cases h2 : mapPropertiesGo n shape t [] with
            | error e2 => trivial
            | ok pr2 =>
                rw [h1, h2] at hrel
                exact absurd hrel (by simp [RelRes])
        | ok pr1 =>
            obtain ⟨fs1, s1⟩ := pr1
            cases h2 : mapPropertiesGo n shape t [] with
            | error e2 =>
                rw [h1, h2] at hrel
                exact absurd hrel (by simp [RelRes])
            | ok pr2 =>
                obtain ⟨fs2, s2⟩ := pr2
                rw [h1, h2] at hrel
                simp only [RelRes] at hrel
                obtain ⟨hf, hrest⟩ := hrel
                subst hf
                exact ⟨rfl, hrest⟩
      have htr : ∀ z s t, EqNoPath s t →
          RelRes (createTransformSchema (n + 1) z s)
            (createTransformSchema (n + 1) z t) := by
        intro z s t h
        obtain ⟨hc, ht, he⟩ := h
        unfold createTransformSchema
        by_cases h1c : z.meta.effectType = some .output
        · rw [if_pos h1c, if_pos h1c]
          exact createManualTypeSchema_rel _ s t ⟨hc, ht, he⟩
        · rw [if_neg h1c, if_neg h1c]
          by_cases h2c : z.meta.effectType = some .input
          · rw [if_pos h2c, if_pos h2c]
            exact ihso _ s t _ _ ⟨hc, ht, he⟩
          · rw [if_neg h2c, if_neg h2c]
            simp only [← ht]
            by_cases h3c : s.type = .output
            · rw [if_pos h3c, if_pos h3c]
              exact createManualTypeSchema_rel _ s t ⟨hc, ht, he⟩
            · rw [if_neg h3c, if_neg h3c]
              exact ihso _ _ _ _ _ ⟨hc, rfl, rfl⟩
      have hdu : ∀ d opts s t, EqNoPath s t →
          RelRes (createDiscriminatedUnionSchema (n + 1) d opts s)
            (createDiscriminatedUnionSchema (n + 1) d opts t) := by
        intro d opts s t h
        unfold createDiscriminatedUnionSchema
        have hrel := ihoo opts s t h
        cases h1 : oneOfGo n opts s with
        | error e1 =>
            cases h2 : oneOfGo n opts t with
            | error e2 => trivial
            | ok pr2 =>
                rw [h1, h2] at hrel
                exact absurd hrel (by simp [RelRes])
        | ok pr1 =>
            obtain ⟨js1, s1⟩ := pr1
            cases h2 : oneOfGo n opts t with
            | error e2 =>
                rw [h1, h2] at hrel
                exact absurd hrel (by simp [RelRes])
            | ok pr2 =>
                obtain ⟨js2, s2⟩ := pr2
                rw [h1, h2] at hrel
                simp only [RelRes] at hrel
                obtain ⟨hj, hc2, ht2, he2⟩ := hrel
                subst hj
                dsimp only
                rw [show mapDiscriminator s2.components d opts =
                  mapDiscriminator s1.components d opts from by rw [hc2]]
                cases mapDiscriminator s1.components d opts with
                | some mapping => exact ⟨rfl, hc2, ht2, he2⟩
                | none => exact ⟨rfl, hc2, ht2, he2⟩
      have hoo : ∀ opts s t, EqNoPath s t →
          RelRes (oneOfGo (n + 1) opts s) (oneOfGo (n + 1) opts t) := by
        intro opts s t h
        unfold oneOfGo
        cases opts with
        | nil => exact ⟨rfl, h⟩
        | cons z rest =>
            dsimp only
            have hrel := ihso z s t [("discriminated union option")]
              [("discriminated union option")] h
            cases h1 : createSchemaObject n z s
                [("discriminated union option")] with
            | error e1 =>
                cases h2 : createSchemaObject n z t
                    [("discriminated union option")] with
                | error e2 => trivial
                | ok pr2 =>
                    rw [h1, h2] at hrel
                    exact absurd hrel (by simp [RelRes])
            | ok pr1 =>
                obtain ⟨f1, s1⟩ := pr1
                cases h2 : createSchemaObject n z t
                    [("discriminated union option")] with
                | error e2 =>
                    rw [h1, h2] at hrel
                    exact absurd hrel (by simp [RelRes])
                | ok pr2 =>
                    obtain ⟨f2, s2⟩ := pr2
                    rw [h1, h2] at hrel
                    simp only [RelRes] at hrel
                    obtain ⟨hf, hrest⟩ := hrel
                    subst hf
                    dsimp only
                    have hrel2 := ihoo rest s1 s2 hrest
                    cases h3 : oneOfGo n rest s1 with
                    | error e3 =>
                        cases h4 : oneOfGo n rest s2 with
                        | error e4 => trivial
                        | ok pr4 =>
                            rw [h3, h4] at hrel2
                            exact absurd hrel2 (by simp [RelRes])
                    | ok pr3 =>
                        obtain ⟨js1, sB⟩ := pr3
                        cases h4 : oneOfGo n rest s2 with
                        | error e4 =>
                            rw [h3, h4] at hrel2
                            exact absurd hrel2 (by simp [RelRes])
                        | ok pr4 =>
                            obtain ⟨js2, tB⟩ := pr4
                            rw [h3, h4] at hrel2
                            simp only [RelRes] at hrel2
                            obtain ⟨hj, hrest2⟩ := hrel2
                            subst hj
                            exact ⟨rfl, hrest2⟩
      exact ⟨hso, hin, hob, hex, hfs, hgo, hmp, htr, hdu, hoo⟩

/-! ### C9 -/

/-- C9: `createObjectSchemaFromShape` is deterministic in its arguments —
converting the same shape twice from equivalent traversal states (same
registry, direction and recorded effect type; the diagnostic breadcrumb
paths may differ) yields identical fragments: no hidden counter influences
the output. -/
theorem c9_from_shape_deterministic (fuel : Nat)
    (shape : List (String × ZodType)) (opts : AdditionalPropertyOptions)
    (s t : SchemaState) (f1 f2 : JVal) (s1 t1 : SchemaState)
    (hc : s.components = t.components) (ht : s.type = t.type)
    (he : s.effectType = t.effectType)
    (h1 : createObjectSchemaFromShape fuel shape opts s = .ok (f1, s1))
    (h2 : createObjectSchemaFromShape fuel shape opts t = .ok (f2, t1)) :
    f1 = f2 ∧ s1.components = t1.components := by
  have hrel := (conversion_path_independent fuel).2.2.2.2.1 shape opts s t
    ⟨hc, ht, he⟩
  rw [h1, h2] at hrel
  simp only [RelRes] at hrel
  exact ⟨hrel.1, hrel.2.1⟩

/-- Witness for C9: the same one-field shape converted from two states
that differ only in their breadcrumb paths yields the same fragment. -/
theorem c9_from_shape_deterministic_witness :
    createObjectSchemaFromShape 5 [(("a"), ZodType.string 1 {})]
        ⟨.strip, .never 0 {}⟩ ⟨⟨[]⟩, .input, none, []⟩ =
      .ok (fragReqA, ⟨⟨[]⟩, .input, none, []⟩) ∧
    createObjectSchemaFromShape 5 [(("a"), ZodType.string 1 {})]
        ⟨.strip, .never 0 {}⟩ ⟨⟨[]⟩, .input, none, [("elsewhere")]⟩ =
      .ok (fragReqA, ⟨⟨[]⟩, .input, none, [("elsewhere")]⟩) ∧
    (fragReqA = fragReqA ∧
      (⟨⟨[]⟩, .input, none, []⟩ : SchemaState).components =
        (⟨⟨[]⟩, .input, none, [("elsewhere")]⟩ : SchemaState).components) := by
  have h1 : createObjectSchemaFromShape 5 [(("a"), ZodType.string 1 {})]
      ⟨.strip, .never 0 {}⟩ ⟨⟨[]⟩, .input, none, []⟩ =
      .ok (fragReqA, ⟨⟨[]⟩, .input, none, []⟩) := by
    simp [createObjectSchemaFromShape, mapProperties, mapPropertiesGo,
      mapRequired, createSchemaObject, effectMerge, createSchemaInline,
      ZodType.isNever, ZodType.nid, ZodType.meta, Components.getSchema,
      setKey, isOptionalSchema, lookupKey, fragReqA]
  have h2 : createObjectSchemaFromShape 5 [(("a"), ZodType.string 1 {})]
      ⟨.strip, .never 0 {}⟩ ⟨⟨[]⟩, .input, none, [("elsewhere")]⟩ =
      .ok (fragReqA, ⟨⟨[]⟩, .input, none, [("elsewhere")]⟩) := by
    simp [createObjectSchemaFromShape, mapProperties, mapPropertiesGo,
      mapRequired, createSchemaObject, effectMerge, createSchemaInline,
      ZodType.isNever, ZodType.nid, ZodType.meta, Components.getSchema,
      setKey, isOptionalSchema, lookupKey, fragReqA]
  exact ⟨h1, h2, c9_from_shape_deterministic 5 _ _
    ⟨⟨[]⟩, .input, none, []⟩ ⟨⟨[]⟩, .input, none, [("elsewhere")]⟩
    _ _ _ _ rfl rfl rfl h1 h2⟩

/-! ### C2 -/

/-- C2: the dispatcher preserves an already-recorded effect type on every
successful return — in particular an `output` already recorded on the
state is never silently overwritten with `input`; the conflict error's
message contains the serialized offending node followed by the joined
breadcrumb path; and a bare transform reached in input context with
`output` already recorded raises exactly that error once its wrapped
schema converts. -/
theorem c2_effect_type_conflict (fuel : Nat) (z : ZodType)
    (st : SchemaState) (sp : List String) :
    (∀ f st' e, createSchemaObject fuel z st sp = .ok (f, st') →
      st.effectType = some e → st'.effectType = some e) ∧
    (∀ s : SchemaState, ∃ rest,
      (throwTransformError z s).messageOf =
        serializeZodType z ++ (" at ") ++
          String.intercalate (" > ") s.path ++ rest) ∧
    (∀ n inner m frag0 stI,
      z = .transform n inner m → m.effectType = none → m.ref = none →
      st.type = .input → st.effectType = some .output →
      st.components.getSchema n = none →
      createSchemaObject fuel inner
        { st with path := st.path ++ sp, effectType := some .input }
        [("transform input")] = .ok (frag0, stI) →
      createSchemaObject (fuel + 1 + 1 + 1) z st sp =
        .error (throwTransformError z
          { stI with path := st.path ++ sp })) := by
  refine ⟨?_, ?_, ?_⟩
  · intro f st' e h he
    exact ((effectType_invariant fuel).1 _ _ _ _ _ h).2 e he
  · intro s
    exact ⟨_, rfl⟩
  · intro n inner m frag0 stI hz hmeff hmref hty heff hreg hinner
    subst hz
    have hpair := (effectType_invariant fuel).1 _ _ _ _ _ hinner
    have hstI : stI.effectType = some .input := hpair.2 .input rfl
    have htrans : createTransformSchema (fuel + 1)
        (.transform n inner m) { st with path := st.path ++ sp } =
        .ok (frag0, stI) := by
      unfold createTransformSchema
      rw [if_neg (by simp [ZodType.meta, hmeff]),
        if_neg (by simp [ZodType.meta, hmeff]),
        if_neg (by simp [hty])]
      exact hinner
    have hinline : createSchemaInline (fuel + 1 + 1)
        (.transform n inner m) { st with path := st.path ++ sp } =
        .ok (frag0, stI) := by
      unfold createSchemaInline
      exact htrans
    unfold createSchemaObject
    simp only [ZodType.nid, hreg, ZodType.meta, hmref]
    rw [hinline, heff]
    exact effectMerge_conflict _ _ _ _ _ hstI

/-- Witness for C2: a bare transform over a string, dispatched in input
context on a state already carrying an `output` effect, raises the
conflict error; the inner conversion succeeds on its own. -/
theorem c2_effect_type_conflict_witness :
    createSchemaObject 2 (.string 6 {}) stConfIn [("transform input")] =
      .ok (.obj [(("type"), .str ("string"))], stConfIn) ∧
    createSchemaObject 5 trBare stConf [] =
      .error (throwTransformError trBare stConfIn) ∧
    (∃ rest, (throwTransformError trBare stConfIn).messageOf =
      serializeZodType trBare ++ (" at ") ++
        String.intercalate (" > ") stConfIn.path ++ rest) := by
  have hinner : createSchemaObject 2 (.string 6 {}) stConfIn
      [("transform input")] =
      .ok (.obj [(("type"), .str ("string"))], stConfIn) := by
    simp [createSchemaObject, effectMerge, createSchemaInline, stConfIn,
      ZodType.nid, ZodType.meta, Components.getSchema, lookupKey]
  refine ⟨hinner, ?_,
    (c2_effect_type_conflict 2 trBare stConf []).2.1 stConfIn⟩
  exact (c2_effect_type_conflict 2 trBare stConf []).2.2 5 (.string 6 {})
    {} (.obj [(("type"), .str ("string"))]) stConfIn rfl rfl rfl rfl rfl
    rfl hinner

/-! ### C4 and C5: the extension diff engine -/

/-- When every field shared between base and extension is
reference-identical, the shape diff succeeds and keeps exactly the
extension's fields absent from the base, in declaration order. -/
theorem createShapeDiff_of_shared_identical
    (baseObj extendedObj : List (String × ZodType))
    (hshared : ∀ k v, (k, v) ∈ extendedObj →
      ∀ bv, lookupKey baseObj k = some bv → v.nid = bv.nid) :
    createShapeDiff baseObj extendedObj =
      some (extendedObj.filter fun kv =>
        (lookupKey baseObj kv.1).isNone) := by
  induction extendedObj with
  | nil => simp [createShapeDiff]
  | cons kv rest ih =>
      cases kv with
      | mk k v =>
          have ih' := ih fun k' v' hin bv hbv =>
            hshared k' v' (List.mem_cons_of_mem _ hin) bv hbv
          cases hb : lookupKey baseObj k with
          | none => simp [createShapeDiff, hb, ih', List.filter]
          | some bv =>
              have hid : v.nid = bv.nid :=
                hshared k v (List.mem_cons_self _ _) bv hb
              simp [createShapeDiff, hb, hid, ih', List.filter]

/-- C4: with the base registered as a complete component `X`, a permissive
base policy, and every shared field reference-identical, the extension is
emitted exactly as the spread of `allOf: [$ref to X]` with the object
schema built from the fields of the candidate that are absent from the
base. -/
theorem c4_extended_schema_composition (fuel : Nat) (zc base : ZodType)
    (st : SchemaState) (X : String) (s0 : JVal)
    (hreg : st.components.getSchema base.nid = some (.complete X s0))
    (hstrict : base.unknownKeysOf ≠ .strict)
    (hnever : base.catchallOf.isNever = true)
    (hshared : ∀ k v, (k, v) ∈ zc.shapeOf →
      ∀ bv, lookupKey base.shapeOf k = some bv → v.nid = bv.nid) :
    createShapeDiff base.shapeOf zc.shapeOf =
      some (zc.shapeOf.filter fun kv =>
        (lookupKey base.shapeOf kv.1).isNone) ∧
    ∀ S st2,
      createObjectSchemaFromShape (fuel + 1)
          (zc.shapeOf.filter fun kv => (lookupKey base.shapeOf kv.1).isNone)
          { unknownKeys := zc.unknownKeysOf, catchAll := zc.catchallOf }
          st = .ok (S, st2) →
      createExtendedSchema (fuel + 1 + 1) zc (some base) st =
        .ok (some (spreadObj
          (.obj [(("allOf"), .arr [refFragment X])]) S), st2) := by
  have hdiff := createShapeDiff_of_shared_identical _ _ hshared
  refine ⟨hdiff, ?_⟩
  intro S st2 hS
  have hforce := createSchemaObject_complete fuel base st
    [("extended schema")] X s0 hreg
  have hdo : createDiffOpts
      { unknownKeys := base.unknownKeysOf, catchAll := base.catchallOf }
      { unknownKeys := zc.unknownKeysOf, catchAll := zc.catchallOf } =
      some { unknownKeys := zc.unknownKeysOf,
             catchAll := zc.catchallOf } := by
    simp [createDiffOpts, hstrict, hnever]
  unfold createExtendedSchema
  simp [hreg, hforce, hdo, hdiff, hS, SchemaComponent.ref]

/-- Witness for C4: base `{a: string}` registered as `X`, extension
`{a: sameNode, b: string}`; the emitted schema is the `allOf` reference
plus the object schema of `{b: string}`. -/
theorem c4_extended_schema_composition_witness :
    createShapeDiff baseX.shapeOf extX.shapeOf =
      some (extX.shapeOf.filter fun kv =>
        (lookupKey baseX.shapeOf kv.1).isNone) ∧
    createExtendedSchema 6 extX (some baseX) stX =
      .ok (some (spreadObj (.obj [(("allOf"), .arr [refFragment ("X")])])
        (.obj [(("type"), .str ("object")),
          (("properties"), .obj [(("b"), .obj [(("type"), .str ("string"))])]),
          (("required"), .arr [.str ("b")])])), stX) := by
  have hshared : ∀ k v, (k, v) ∈ extX.shapeOf →
      ∀ bv, lookupKey baseX.shapeOf k = some bv → v.nid = bv.nid := by
    intro k v hin bv hbv
    simp [extX, ZodType.shapeOf] at hin
    rcases hin with ⟨hk, hv⟩ | ⟨hk, hv⟩
    · subst hk
      subst hv
      simp [baseX, ZodType.shapeOf, lookupKey] at hbv
      subst hbv
      rfl
    · subst hk
      subst hv
      simp [baseX, ZodType.shapeOf, lookupKey] at hbv
  have h := c4_extended_schema_composition 4 extX baseX stX ("X") (.obj [])
    (by simp [baseX, stX, ZodType.nid, Components.getSchema, lookupKey])
    (by simp [baseX, ZodType.unknownKeysOf])
    (by simp [baseX, ZodType.catchallOf, ZodType.isNever]) hshared
  refine ⟨h.1, ?_⟩
  have hS : createObjectSchemaFromShape 5
      (extX.shapeOf.filter fun kv => (lookupKey baseX.shapeOf kv.1).isNone)
      { unknownKeys := extX.unknownKeysOf, catchAll := extX.catchallOf }
      stX = .ok (.obj [(("type"), .str ("object")),
        (("properties"), .obj [(("b"), .obj [(("type"), .str ("string"))])]),
        (("required"), .arr [.str ("b")])], stX) := by
    simp [extX, baseX, aNode, stX, ZodType.shapeOf, ZodType.unknownKeysOf,
      ZodType.catchallOf, List.filter, lookupKey,
      createObjectSchemaFromShape, mapProperties, mapPropertiesGo,
      mapRequired, createSchemaObject, effectMerge, createSchemaInline,
      ZodType.isNever, ZodType.nid, ZodType.meta, Components.getSchema,
      setKey, isOptionalSchema]
  exact h.2 _ _ hS

/-- C5: a shared field held by a different node instance aborts the whole
shape diff with no partial result; the extension engine then reports "no
extension" without an error, and the object converter falls back to full
generation from the candidate's own shape. -/
theorem c5_shape_diff_abort_and_fallback :
    (∀ (baseObj extendedObj : List (String × ZodType)) k v bv,
      (k, v) ∈ extendedObj → lookupKey baseObj k = some bv →
      v.nid ≠ bv.nid → createShapeDiff baseObj extendedObj = none) ∧
    (∀ fuel (z base : ZodType) (st : SchemaState) X s0,
      st.components.getSchema base.nid = some (.complete X s0) →
      createShapeDiff base.shapeOf z.shapeOf = none →
      createExtendedSchema (fuel + 1 + 1) z (some base) st =
        .ok (none, st)) ∧
    (∀ fuel (z b : ZodType) (st st1 : SchemaState),
      z.extendsOf = some b →
      createExtendedSchema (fuel + 1) z (some b) st = .ok (none, st1) →
      createObjectSchema (fuel + 1 + 1) z st =
        createObjectSchemaFromShape (fuel + 1) z.shapeOf
          { unknownKeys := z.unknownKeysOf, catchAll := z.catchallOf }
          st1) := by
  refine ⟨?_, ?_, ?_⟩
  · intro baseObj extendedObj k v bv hin hbv hne
    induction extendedObj with
    | nil => cases hin
    | cons kv rest ih =>
        cases kv with
        | mk k0 v0 =>
            rcases List.mem_cons.mp hin with heq | htail
            · injection heq with hk hv
              subst hk
              subst hv
              simp [createShapeDiff, hbv, hne]
            · cases hb0 : lookupKey baseObj k0 with
              | none => simp [createShapeDiff, hb0, ih htail]
              | some bv0 =>
                  by_cases hid : v0.nid = bv0.nid
                  · simp [createShapeDiff, hb0, hid, ih htail]
                  · simp [createShapeDiff, hb0, hid]
  · intro fuel z base st X s0 hreg hdiff
    have hforce := createSchemaObject_complete fuel base st
      [("extended schema")] X s0 hreg
    unfold createExtendedSchema
    cases hdo : createDiffOpts
        { unknownKeys := base.unknownKeysOf, catchAll := base.catchallOf }
        { unknownKeys := z.unknownKeysOf, catchAll := z.catchallOf } with
    | none => simp [hreg, hforce, hdo]
    | some diffOpts => simp [hreg, hforce, hdo, hdiff]
  · intro fuel z b st st1 hz hext
    unfold createObjectSchema
    rw [hz, hext]

/-- Witness for C5: the extension redefining `a` with a structurally equal
but distinct node falls back to full inline generation. -/
theorem c5_shape_diff_abort_and_fallback_witness :
    createShapeDiff baseX.shapeOf extBad.shapeOf = none ∧
    createExtendedSchema 2 extBad (some baseX) stX = .ok (none, stX) ∧
    createObjectSchema 3 extBad stX =
      createObjectSchemaFromShape 2 extBad.shapeOf
        { unknownKeys := extBad.unknownKeysOf,
          catchAll := extBad.catchallOf } stX := by
  have h1 := c5_shape_diff_abort_and_fallback.1 baseX.shapeOf extBad.shapeOf
    ("a") (.string 99 {}) aNode
    (by simp [extBad, ZodType.shapeOf])
    (by simp [baseX, ZodType.shapeOf, lookupKey])
    (by simp [aNode, ZodType.nid])
  have h2 := c5_shape_diff_abort_and_fallback.2.1 0 extBad baseX stX
    ("X") (.obj [])
    (by simp [baseX, stX, ZodType.nid, Components.getSchema, lookupKey]) h1
  refine ⟨h1, h2, ?_⟩
  exact c5_shape_diff_abort_and_fallback.2.2 1 extBad baseX stX stX
    (by simp [extBad, ZodType.extendsOf]) h2

/-! ### C7: the discriminated union mapping -/

/-- If any member lacks a registry record, the mapping is not built. -/
theorem mapDiscriminator_none_of_unregistered (components : Components)
    (d : String) (options : List ZodType) (z : ZodType) (hz : z ∈ options)
    (hreg : components.getSchema z.nid = none) :
    mapDiscriminator components d options = none := by
  induction options with
  | nil => cases hz
  | cons z0 rest ih =>
      rcases List.mem_cons.mp hz with rfl | htail
      · simp [mapDiscriminator, hreg]
      · cases h0 : components.getSchema z0.nid with
        | none => simp [mapDiscriminator, h0]
        | some comp =>
            cases hv : discriminatorValues z0 d with
            | none => simp [mapDiscriminator, h0, hv]
            | some vs => simp [mapDiscriminator, h0, hv, ih htail]

/-- An enum-valued discriminator field of a registered member contributes
one entry per enumerated value to a successful mapping. -/
theorem mapDiscriminator_enum_entries (components : Components) (d : String)
    (options : List ZodType) :
    ∀ m, mapDiscriminator components d options = some m →
    ∀ z ∈ options, ∀ comp, components.getSchema z.nid = some comp →
    ∀ i vs mt, lookupKey z.shapeOf d = some (.enum i vs mt) →
    ∀ v ∈ vs, (v, JVal.str (createComponentSchemaRef comp.ref)) ∈ m := by
  induction options with
  | nil =>
      intro m _ z hz
      cases hz
  | cons z0 rest ih =>
      intro m hm z hz comp hcomp i vs mt hfield v hv
      simp only [mapDiscriminator] at hm
      cases h0 : components.getSchema z0.nid with
      | none =>
          rw [h0] at hm
          simp at hm
      | some comp0 =>
          rw [h0] at hm
          cases hv0 : discriminatorValues z0 d with
          | none =>
              rw [hv0] at hm
              simp at hm
          | some vs0 =>
              rw [hv0] at hm
              cases hrest : mapDiscriminator components d rest with
              | none =>
                  rw [hrest] at hm
                  simp at hm
              | some m2 =>
                  rw [hrest] at hm
                  simp only [Option.map_some', Option.some.injEq] at hm
                  rcases List.mem_cons.mp hz with rfl | htail
                  · have hcc : comp0 = comp := by
                      rw [h0] at hcomp
                      injection hcomp
                    have hvv : vs0 = vs := by
                      have hdv : discriminatorValues z d = some vs := by
                        simp [discriminatorValues, hfield]
                      rw [hv0] at hdv
                      injection hdv
                    subst hcc
                    subst hvv
                    rw [← hm]
                    exact List.mem_append_left _
                      (List.mem_map.mpr ⟨v, hv, rfl⟩)
                  · rw [← hm]
                    exact List.mem_append_right _
                      (ih m2 hrest z htail comp hcomp i vs mt hfield v hv)

/-- C7: the discriminated union result always carries the `oneOf` list of
the converted members; the `discriminator` block is attached only when the
mapping construction succeeds, which requires every member to have a
registry record after conversion — otherwise the key is entirely absent —
and an enum-valued discriminator field of a registered member contributes
one mapping entry per enumerated value, each to that member's reference
path. -/
theorem c7_discriminated_union_mapping (fuel : Nat) (d : String)
    (options : List ZodType) (st : SchemaState) (frag : JVal)
    (st' : SchemaState)
    (h : createDiscriminatedUnionSchema (fuel + 1) d options st =
      .ok (frag, st')) :
    (∃ js, oneOfGo fuel options st = .ok (js, st') ∧
      (mapDiscriminator st'.components d options = none →
        frag = .obj [(("oneOf"), .arr js)] ∧
        frag.getField ("discriminator") = none) ∧
      (∀ m, mapDiscriminator st'.components d options = some m →
        frag = .obj [(("oneOf"), .arr js),
          (("discriminator"), .obj [(("propertyName"), .str d),
            (("mapping"), .obj m)])])) ∧
    (∀ z ∈ options, st'.components.getSchema z.nid = none →
      mapDiscriminator st'.components d options = none) ∧
    (∀ m, mapDiscriminator st'.components d options = some m →
      ∀ z ∈ options, ∀ comp, st'.components.getSchema z.nid = some comp →
      ∀ i vs mt, lookupKey z.shapeOf d = some (.enum i vs mt) →
      ∀ v ∈ vs, (v, JVal.str (createComponentSchemaRef comp.ref)) ∈ m) := by
  unfold createDiscriminatedUnionSchema at h
  cases hgo : oneOfGo fuel options st with
  | error e =>
      rw [hgo] at h
      simp at h
  | ok pr =>
      obtain ⟨js, st1⟩ := pr
      rw [hgo] at h
      dsimp only at h
      cases hmap : mapDiscriminator st1.components d options with
      | none =>
          rw [hmap] at h
          simp only [Except.ok.injEq, Prod.mk.injEq] at h
          obtain ⟨hfeq, hst⟩ := h
          subst hst
          refine ⟨⟨js, rfl, fun _ => ⟨hfeq.symm, ?_⟩, fun m hm => ?_⟩,
            fun z hz hreg =>
              mapDiscriminator_none_of_unregistered _ _ _ z hz hreg,
            fun m hm => ?_⟩
          · rw [← hfeq]
            simp [JVal.getField, lookupKey]
          · rw [hmap] at hm
            cases hm
          · rw [hmap] at hm
            cases hm
      | some mapping =>
          rw [hmap] at h
          simp only [Except.ok.injEq, Prod.mk.injEq] at h
          obtain ⟨hfeq, hst⟩ := h
          subst hst
          refine ⟨⟨js, rfl, fun hcontra => ?_, fun m hm => ?_⟩,
            fun z hz hreg =>
              mapDiscriminator_none_of_unregistered _ _ _ z hz hreg,
            fun m hm => mapDiscriminator_enum_entries _ _ _ m hm⟩
          · rw [hmap] at hcontra
            cases hcontra
          · rw [hmap] at hm
            injection hm with hm
            subst hm
            exact hfeq.symm

/-- Witness for C7: the registered members `unionC` (literal tag) and
`unionD` (enum tag over d and e) yield a mapping with entries for `c`,
`d` and `e`; the unregistered members `plainA` and `plainB` yield a
`oneOf` with no `discriminator` key. -/
theorem c7_discriminated_union_mapping_witness :
    createDiscriminatedUnionSchema 12 ("type") [unionC, unionD] stOut =
      .ok (duFragCD, duStCD) ∧
    (("d"), JVal.str (createComponentSchemaRef ("d"))) ∈
      [(("c"), JVal.str (createComponentSchemaRef ("c"))),
       (("d"), JVal.str (createComponentSchemaRef ("d"))),
       (("e"), JVal.str (createComponentSchemaRef ("d")))] ∧
    (("e"), JVal.str (createComponentSchemaRef ("d"))) ∈
      [(("c"), JVal.str (createComponentSchemaRef ("c"))),
       (("d"), JVal.str (createComponentSchemaRef ("d"))),
       (("e"), JVal.str (createComponentSchemaRef ("d")))] ∧
    createDiscriminatedUnionSchema 12 ("type") [plainA, plainB] stOut =
      .ok (.obj [(("oneOf"), .arr [plainFragA, plainFragB])], stOut) ∧
    (JVal.obj [(("oneOf"), .arr [plainFragA, plainFragB])]
      ).getField ("discriminator") = none := by
  have hrun : createDiscriminatedUnionSchema 12 ("type") [unionC, unionD]
      stOut = .ok (duFragCD, duStCD) := by
    simp [createDiscriminatedUnionSchema, oneOfGo, createSchemaObject,
      effectMerge, createSchemaInline, createObjectSchema, createExtendedSchema,
      createObjectSchemaFromShape, mapProperties, mapPropertiesGo,
      mapRequired, mapDiscriminator, discriminatorValues, isOptionalSchema,
      unionC, unionD, stOut, duStCD, duFragCD, fragC, fragD, refFragment,
      createComponentSchemaRef, ZodType.isNever, ZodType.nid, ZodType.meta,
      ZodType.shapeOf, ZodType.unknownKeysOf, ZodType.catchallOf,
      ZodType.extendsOf, Components.getSchema, Components.setSchema,
      lookupKey, setKey, jsTruthyStr]
    exact ⟨rfl, rfl⟩
  have hmapCD : mapDiscriminator duStCD.components ("type")
      [unionC, unionD] =
      some [(("c"), JVal.str (createComponentSchemaRef ("c"))),
        (("d"), JVal.str (createComponentSchemaRef ("d"))),
        (("e"), JVal.str (createComponentSchemaRef ("d")))] := by
    rfl
  have hd := (c7_discriminated_union_mapping 11 ("type") [unionC, unionD]
      stOut duFragCD duStCD hrun).2.2 _ hmapCD unionD
    (by simp) (.complete ("d") fragD)
    (by simp [duStCD, unionD, ZodType.nid, Components.getSchema, lookupKey])
    23 [("d"), ("e")] {}
    (by simp [unionD, ZodType.shapeOf, lookupKey])
  have hrun2 : createDiscriminatedUnionSchema 12 ("type") [plainA, plainB]
      stOut = .ok (.obj [(("oneOf"), .arr [plainFragA, plainFragB])],
        stOut) := by
    simp [createDiscriminatedUnionSchema, oneOfGo, createSchemaObject,
      effectMerge, createSchemaInline, createObjectSchema, createExtendedSchema,
      createObjectSchemaFromShape, mapProperties, mapPropertiesGo,
      mapRequired, mapDiscriminator, discriminatorValues, isOptionalSchema,
      plainA, plainB, stOut, plainFragA, plainFragB, ZodType.isNever,
      ZodType.nid, ZodType.meta, ZodType.shapeOf, ZodType.unknownKeysOf,
      ZodType.catchallOf, ZodType.extendsOf, Components.getSchema,
      Components.setSchema, lookupKey, setKey, jsTruthyStr]
  have hnone := ((c7_discriminated_union_mapping 11 ("type")
      [plainA, plainB] stOut _ _ hrun2).1).choose_spec.2.1
    (by simp [mapDiscriminator, stOut, plainA, Components.getSchema,
      lookupKey, ZodType.nid])
  exact ⟨hrun, hd ("d") (by simp), hd ("e") (by simp), hrun2, hnone.2⟩

/-! ### C10 -/

/-- C10: the claim states `additionalProperties: false` is emitted if and
only if `unknownKeys` is `strict`.  Counterexample: with `unknownKeys`
`strict` and a non-`ZodNever` catchall, the second spread overwrites the
`false` with the converted catchall schema, so `strict` holds but `false`
is not emitted. -/
theorem c10_strict_catchall_counterexample :
    createObjectSchemaFromShape 4 [] ⟨.strict, .string 7 {}⟩
        { components := ⟨[]⟩, type := .input } =
      .ok (.obj [(("type"), .str ("object")), (("properties"), .obj []),
        (("additionalProperties"), .obj [(("type"), .str ("string"))])],
        { components := ⟨[]⟩, type := .input }) ∧
    (JVal.obj [(("type"), .str ("object")), (("properties"), .obj []),
      (("additionalProperties"), .obj [(("type"), .str ("string"))])]
      ).getField ("additionalProperties") ≠ some (.bool false) := by
  constructor
  · simp [createObjectSchemaFromShape, mapProperties, mapPropertiesGo,
      mapRequired, createSchemaObject, effectMerge, createSchemaInline, ZodType.isNever,
      ZodType.nid, ZodType.meta, Components.getSchema, lookupKey, setKey]
  · simp [JVal.getField, lookupKey]

/-- C10 (amended): `createObjectSchemaFromShape` always carries
`type: object`; it emits `additionalProperties: false` when `unknownKeys`
is `strict` and the catchall is `ZodNever`; it emits the converted
catchall schema whenever the catchall is not `ZodNever` (overriding the
`false` even under `strict`); and it emits no `additionalProperties` key
when `unknownKeys` is not `strict` and the catchall is `ZodNever`. -/
theorem c10_additional_properties_policy (fuel : Nat)
    (shape : List (String × ZodType)) (opts : AdditionalPropertyOptions)
    (st : SchemaState) (f : JVal) (st' : SchemaState)
    (h : createObjectSchemaFromShape (fuel + 1) shape opts st =
      .ok (f, st')) :
    f.getField ("type") = some (.str ("object")) ∧
    (opts.unknownKeys = .strict → opts.catchAll.isNever = true →
      f.getField ("additionalProperties") = some (.bool false)) ∧
    (opts.unknownKeys ≠ .strict → opts.catchAll.isNever = true →
      f.getField ("additionalProperties") = none) ∧
    (opts.catchAll.isNever = false →
      ∃ p stMid ap st2, mapProperties fuel shape st = .ok (p, stMid) ∧
        createSchemaObject fuel opts.catchAll stMid
          [("additional properties")] = .ok (ap, st2) ∧
        f.getField ("additionalProperties") = some ap) := by
  unfold createObjectSchemaFromShape at h
  cases hmp : mapProperties fuel shape st with
  | error e =>
      rw [hmp] at h
      simp at h
  | ok pr =>
      obtain ⟨properties, st1⟩ := pr
      rw [hmp] at h
      simp only [] at h
      cases hnev : opts.catchAll.isNever with
      | true =>
          rw [hnev] at h
          simp only [if_true, Except.ok.injEq, Prod.mk.injEq] at h
          obtain ⟨hfeq, hst⟩ := h
          subst hfeq
          refine ⟨?_, ?_, ?_, ?_⟩
          · cases properties <;> cases mapRequired shape st1 <;>
              by_cases hs : opts.unknownKeys = .strict <;>
              simp [hs, JVal.getField, setKey, lookupKey]
          · intro hs _
            cases properties <;> cases mapRequired shape st1 <;>
              simp [hs, JVal.getField, setKey, lookupKey]
          · intro hs _
            cases properties <;> cases mapRequired shape st1 <;>
              simp [hs, JVal.getField, setKey, lookupKey]
          · intro hcontra
            exact Bool.noConfusion hcontra
      | false =>
          rw [hnev, if_neg (by decide : ¬ ((false : Bool) = true))] at h
          cases hap : createSchemaObject fuel opts.catchAll st1
              [("additional properties")] with
          | error e =>
              rw [hap] at h
              simp at h
          | ok apr =>
              obtain ⟨apFrag, st2⟩ := apr
              rw [hap] at h
              simp only [Except.ok.injEq, Prod.mk.injEq] at h
              obtain ⟨hfeq, hst⟩ := h
              subst hfeq
              refine ⟨?_, ?_, ?_, ?_⟩
              · cases properties <;> cases mapRequired shape st1 <;>
                  by_cases hs : opts.unknownKeys = .strict <;>
                  simp [hs, JVal.getField, setKey, lookupKey]
              · intro _ hcontra
                exact Bool.noConfusion hcontra
              · intro _ hcontra
                exact Bool.noConfusion hcontra
              · intro _
                refine ⟨properties, st1, apFrag, st2, rfl, hap, ?_⟩
                cases properties <;> cases mapRequired shape st1 <;>
                  by_cases hs : opts.unknownKeys = .strict <;>
                  simp [hs, JVal.getField, setKey, lookupKey,
                    lookupKey_setKey_self]

/-- Witness for C10 (amended): a singleton required shape with a `strict`
policy and `ZodNever` catchall. -/
theorem c10_additional_properties_policy_witness :
    createObjectSchemaFromShape 5 [(("a"), ZodType.string 1 {})]
        ⟨.strict, .never 0 {}⟩ { components := ⟨[]⟩, type := .input } =
      .ok (.obj [(("type"), .str ("object")),
        (("properties"), .obj [(("a"), .obj [(("type"), .str ("string"))])]),
        (("required"), .arr [.str ("a")]),
        (("additionalProperties"), .bool false)],
        { components := ⟨[]⟩, type := .input }) ∧
    (JVal.obj [(("type"), .str ("object")),
      (("properties"), .obj [(("a"), .obj [(("type"), .str ("string"))])]),
      (("required"), .arr [.str ("a")]),
      (("additionalProperties"), .bool false)]).getField ("type") =
        some (.str ("object")) ∧
    (JVal.obj [(("type"), .str ("object")),
      (("properties"), .obj [(("a"), .obj [(("type"), .str ("string"))])]),
      (("required"), .arr [.str ("a")]),
      (("additionalProperties"), .bool false)]
      ).getField ("additionalProperties") = some (.bool false) := by
  have hrun : createObjectSchemaFromShape 5 [(("a"), ZodType.string 1 {})]
      ⟨.strict, .never 0 {}⟩ { components := ⟨[]⟩, type := .input } =
      .ok (.obj [(("type"), .str ("object")),
        (("properties"), .obj [(("a"), .obj [(("type"), .str ("string"))])]),
        (("required"), .arr [.str ("a")]),
        (("additionalProperties"), .bool false)],
        { components := ⟨[]⟩, type := .input }) := by
    simp [createObjectSchemaFromShape, mapProperties, mapPropertiesGo,
      mapRequired, createSchemaObject, effectMerge, createSchemaInline, ZodType.isNever,
      ZodType.nid, ZodType.meta, Components.getSchema, lookupKey, setKey,
      isOptionalSchema]
  exact ⟨hrun,
    (c10_additional_properties_policy 4 _ _ _ _ _ hrun).1,
    (c10_additional_properties_policy 4 _ _ _ _ _ hrun).2.1 rfl rfl⟩

/-! ### C6 -/

/-- C6: the extension optimization requires a default-permissive base:
`createDiffOpts` yields nothing when the base is `strict` or has a
non-`ZodNever` catchall (and then `createExtendedSchema` yields
`undefined`), and otherwise emits the candidate's own `unknownKeys` and
catchall. -/
theorem c6_extension_requires_permissive_base :
    (∀ baseOpts extOpts : AdditionalPropertyOptions,
      baseOpts.unknownKeys = .strict ∨ baseOpts.catchAll.isNever = false →
      createDiffOpts baseOpts extOpts = none) ∧
    (∀ baseOpts extOpts : AdditionalPropertyOptions,
      baseOpts.unknownKeys ≠ .strict → baseOpts.catchAll.isNever = true →
      createDiffOpts baseOpts extOpts =
        some { unknownKeys := extOpts.unknownKeys,
               catchAll := extOpts.catchAll }) ∧
    (∀ fuel (z base : ZodType) (st : SchemaState) X s0,
      st.components.getSchema base.nid = some (.complete X s0) →
      base.unknownKeysOf = .strict ∨ base.catchallOf.isNever = false →
      createExtendedSchema (fuel + 1 + 1) z (some base) st =
        .ok (none, st)) := by
  refine ⟨?_, ?_, ?_⟩
  · intro baseOpts extOpts hpol
    rcases hpol with h1 | h1 <;> simp [createDiffOpts, h1]
  · intro baseOpts extOpts h1 h2
    simp [createDiffOpts, h1, h2]
  · intro fuel z base st X s0 h hpol
    have hforce := createSchemaObject_complete fuel base st
      [("extended schema")] X s0 h
    unfold createExtendedSchema
    have hdo : createDiffOpts
        { unknownKeys := base.unknownKeysOf, catchAll := base.catchallOf }
        { unknownKeys := z.unknownKeysOf, catchAll := z.catchallOf } =
        none := by
      rcases hpol with h1 | h1 <;> simp [createDiffOpts, h1]
    simp [h, hforce, hdo]

/-- Witness for C6: a strict base defeats the optimization. -/
theorem c6_extension_requires_permissive_base_witness :
    createDiffOpts ⟨.strict, .never 0 {}⟩ ⟨.passthrough, .string 1 {}⟩ =
      none ∧
    createDiffOpts ⟨.strip, .never 0 {}⟩ ⟨.passthrough, .string 1 {}⟩ =
      some { unknownKeys := .passthrough, catchAll := .string 1 {} } ∧
    createExtendedSchema 2 (.object 2 [] .strip (.never 0 {})
        (some (.object 1 [] .strict (.never 0 {}) none {})) {})
        (some (.object 1 [] .strict (.never 0 {}) none {}))
        ⟨⟨[(1, .complete ("X") (.obj []))]⟩, .input, none, []⟩ =
      .ok (none, ⟨⟨[(1, .complete ("X") (.obj []))]⟩, .input, none, []⟩) :=
  ⟨(c6_extension_requires_permissive_base).1 _ _ (Or.inl rfl),
   (c6_extension_requires_permissive_base).2.1 _ _ (by simp) rfl,
   (c6_extension_requires_permissive_base).2.2 0 _ _ _ ("X") (.obj [])
     rfl (Or.inl rfl)⟩

/-- Witness for C8: a shape with one required and one optional field. -/
theorem c8_map_required_exact_witness :
    (∀ l, mapRequired
        [(("a"), ZodType.string 1 {}),
         (("b"), ZodType.optional 2 (.string 3 {}) {})]
        { components := ⟨[]⟩, type := .input } = some l →
      l.Sublist [("a"), ("b")] ∧
      ∀ k, k ∈ l ↔ ∃ v,
        (k, v) ∈ [(("a"), ZodType.string 1 {}),
          (("b"), ZodType.optional 2 (.string 3 {}) {})] ∧
        isOptionalSchema v { components := ⟨[]⟩, type := .input } = false) ∧
    (mapRequired
        [(("a"), ZodType.string 1 {}),
         (("b"), ZodType.optional 2 (.string 3 {}) {})]
        { components := ⟨[]⟩, type := .input } = none ↔
      ∀ kv ∈ [(("a"), ZodType.string 1 {}),
        (("b"), ZodType.optional 2 (.string 3 {}) {})],
        isOptionalSchema kv.2 { components := ⟨[]⟩, type := .input } = true) :=
  c8_map_required_exact _ _

end ZodOpenApi
